import Mathlib

/-!
Verification of the LNK-file decoder (`LnkFileInfo`, version 2.0.1 header).

The byte buffer of the file is modelled as a `List Nat`; each entry stands
for one `uint8_t` of the `std::vector<uint8_t>`, so every fetch reduces the
stored value modulo 256.  Fallible operations (`readInteger` and everything
built on it, which throw `InvalidLnkFile` in C++) return `Option`; `none`
is the thrown exception.  Machine arithmetic that can wrap in C++
(`uint16_t`, `uint32_t`) carries an explicit `% 2 ^ 16` / `% 2 ^ 32`;
`size_t` sums cannot overflow for any realizable buffer and are plain `Nat`.

The two string-scanning loops advance by the number of bytes consumed
(2 or 4 per UTF-16 code point), so they are written with an explicit fuel
argument that decreases by one per iteration.  The chosen fuel is an upper
bound on the number of iterations (each iteration advances the position by
at least 2), so the out-of-fuel branch is unreachable; it is aligned with
the loop guard so that exhausting the fuel coincides with normal loop exit.
For `readNullTerminatedStringAux` the fuel `bytes.length + 1 - i` is exact:
when it is zero, the one-byte read at `i` is out of range and fails anyway.
-/

set_option maxRecDepth 8000

namespace LnkParse

/-- One element of the `std::vector<uint8_t>` buffer: entry `k`, reduced to
a byte value.  Out-of-range indices give a dummy 0; `readInteger` never
uses them because of its bounds guard. -/
def byteAt (bytes : List Nat) (k : Nat) : Nat :=
  bytes.getD k 0 % 256

/-- `LnkFileInfo::readInteger<T>` with `w = sizeof(T)`: bounds-checked
little-endian read.  `none` models the thrown `InvalidLnkFile("Index out of
range")`. -/
def readInteger (w : Nat) (bytes : List Nat) (i : Nat) : Option Nat :=
  if i + w > bytes.length then none
  else some ((List.range w).foldr (fun j acc => byteAt bytes (i + j) * 2 ^ (8 * j) + acc) 0)

/-- The body of the character loop of `LnkFileInfo::readNullTerminatedString`:
a Latin-1 byte becomes one UTF-8 byte if ASCII, two otherwise. -/
def latin1ToUtf8 (c : Nat) : List Nat :=
  if c < 0x80 then [c]
  else [0xc0 ||| c >>> 6, 0x80 ||| (c &&& 0x3f)]

/-- Loop of `LnkFileInfo::readNullTerminatedString`, structurally recursive on
the exact fuel `bytes.length + 1 - i` (maintained by `readNullTerminatedString`):
when the fuel is 0, `i > bytes.length`, so the one-byte read fails in C++ too. -/
def readNullTerminatedStringAux (bytes : List Nat) : Nat → Nat → Option (List Nat)
  | 0, _ => none
  | fuel + 1, i =>
    (readInteger 1 bytes i).bind fun c =>
    if c = 0 then some []
    else (readNullTerminatedStringAux bytes fuel (i + 1)).map (latin1ToUtf8 c ++ ·)

/-- `LnkFileInfo::readNullTerminatedString`: reads Latin-1 bytes until a 0
byte, transcoding to UTF-8; any out-of-range read aborts. -/
def readNullTerminatedString (bytes : List Nat) (i : Nat) : Option (List Nat) :=
  readNullTerminatedStringAux bytes (bytes.length + 1 - i) i

/-- The `continuationMask` / `continuationValue` pair selected by the
`switch(numberOfBytes)` in the last loop iteration (`j == 1`) of the UTF-8
encoder in `LnkFileInfo::readUtf16Codepoint`. -/
def continuationParams (numberOfBytes : Nat) : Nat × Nat :=
  match numberOfBytes with
  | 1 => (0x7F, 0x00)
  | 2 => (0x1F, 0xC0)
  | 3 => (0x0F, 0xE0)
  | _ => (0x07, 0xF0)

/-- The `for(int j = numberOfBytes; j > 0; j--)` loop of
`LnkFileInfo::readUtf16Codepoint`: prepends one byte per iteration and
shifts the code point right by 6 bits. -/
def utf8EncodeAux (numberOfBytes : Nat) : Nat → Nat → List Nat
  | _, 0 => []
  | codepoint, j + 1 =>
    let p := if j = 0 then continuationParams numberOfBytes else (0x3F, 0x80)
    utf8EncodeAux numberOfBytes (codepoint >>> 6) j ++ [(codepoint &&& p.1) ||| p.2]

/-- The UTF-8 serialisation part of `LnkFileInfo::readUtf16Codepoint`
(the `numberOfBytes` selection plus the encoding loop). -/
def utf8Encode (codepoint : Nat) : List Nat :=
  let numberOfBytes := if codepoint > 0xFFFF then 4 else if codepoint > 0x7FF then 3
    else if codepoint > 0x7F then 2 else 1
  utf8EncodeAux numberOfBytes codepoint numberOfBytes

/-- `LnkFileInfo::readUtf16Codepoint`: reads one UTF-16 code unit (or a
surrogate pair) at `i` bounded by `e`, returning the UTF-8 encoding and the
number of source bytes consumed (2 or 4). -/
def readUtf16Codepoint (bytes : List Nat) (i e : Nat) : Option (List Nat × Nat) :=
  (readInteger 2 bytes i).bind fun high =>
  if high &&& 0xF800 ≠ 0xD800 then
    some (utf8Encode high, 2)
  else if high &&& 0xFC00 ≠ 0xD800 ∨ e < i + 4 then
    some (utf8Encode 0xFFFD, 2)
  else
    (readInteger 2 bytes (i + 2)).bind fun low =>
    if low &&& 0xFC00 ≠ 0xDC00 then
      some (utf8Encode 0xFFFD, 2)
    else
      some (utf8Encode ((((high &&& 0x3FF) <<< 10) ||| (low &&& 0x3FF)) + 0x10000), 4)

/-- The `while(i <= end)` loop of `LnkFileInfo::readStringWithPrependedLength`.
Each iteration advances `i` by at least 2, so fuel `n + 1` (supplied by the
caller, where `e = i + 2 * n`) keeps the invariant `i + 2 * fuel ≥ e + 2`;
at fuel 0 that forces `i > e`, making the out-of-fuel `none` unreachable. -/
def readUtf16Span (bytes : List Nat) (e : Nat) : Nat → Nat → Option (List Nat)
  | 0, i => if i ≤ e then none else some []
  | fuel + 1, i =>
    if i ≤ e then
      (readUtf16Codepoint bytes i e).bind fun cb =>
      (readUtf16Span bytes e fuel (i + cb.2)).map (cb.1 ++ ·)
    else some []

/-- `LnkFileInfo::readStringWithPrependedLength`: 16-bit code-unit count at
`i`, then the UTF-16 payload; returns the UTF-8 string and `end + 2`. -/
def readStringWithPrependedLength (bytes : List Nat) (i : Nat) : Option (List Nat × Nat) :=
  (readInteger 2 bytes i).bind fun n =>
  (readUtf16Span bytes (i + n * 2) (n + 1) (i + 2)).map (fun r => (r, i + n * 2 + 2))

/-- The `while(i < length)` loop of `LnkFileInfo::readFixedLengthString`;
reads code units at `i + offset + 2` bounded by the whole buffer.  Fuel
`length + 1` keeps the invariant `i + 2 * fuel ≥ length + 2`, making the
out-of-fuel `none` unreachable. -/
def readFixedLengthSpan (bytes : List Nat) (offset length : Nat) : Nat → Nat → Option (List Nat)
  | 0, i => if i < length then none else some []
  | fuel + 1, i =>
    if i < length then
      (readUtf16Codepoint bytes (i + offset + 2) bytes.length).bind fun cb =>
      (readFixedLengthSpan bytes offset length fuel (i + cb.2)).map (cb.1 ++ ·)
    else some []

/-- `LnkFileInfo::readFixedLengthString`: transcodes `length` bytes of
UTF-16 starting (after its internal `+ 2` skip) at `offset + 2`. -/
def readFixedLengthString (bytes : List Nat) (offset length : Nat) : Option (List Nat) :=
  readFixedLengthSpan bytes offset length (length + 1) 0

/-- The decoded fields of an `LnkFileInfo` object (the data members assigned
by `refresh`, minus the file-path bookkeeping).  Strings are UTF-8 byte
lists; `targetVolumeType` is the numeric value of the `uint8_t`-based
`VolumeType` enum (`NetworkDrive = 4`, `Unknown = 0`). -/
structure ParsedLink where
  targetPath : List Nat
  targetVolumeName : List Nat
  description : List Nat
  relativeTargetPath : List Nat
  workingDirectory : List Nat
  commandLineArgs : List Nat
  iconPath : List Nat
  targetSize : Nat
  iconIndex : Nat
  targetVolumeSerial : Nat
  targetAttributes : Nat
  targetVolumeType : Nat
  targetIsOnNetwork : Bool
  deriving DecidableEq, Repr

/-- A freshly constructed object: `std::string` members default-construct to
empty; the integer members have NO initializer in the class (they are
indeterminate), so concrete values for them are taken as parameters. -/
def initLnk (iconIndex0 targetSize0 serial0 attrs0 volType0 : Nat) (net0 : Bool) : ParsedLink :=
  { targetPath := [], targetVolumeName := [], description := [], relativeTargetPath := []
    workingDirectory := [], commandLineArgs := [], iconPath := []
    targetSize := targetSize0, iconIndex := iconIndex0, targetVolumeSerial := serial0
    targetAttributes := attrs0, targetVolumeType := volType0, targetIsOnNetwork := net0 }

/-- The all-zero instance of `initLnk`. -/
def emptyLnk : ParsedLink := initLnk 0 0 0 0 0 false

/-- Sequencing of one fallible read inside `refresh`: if the read throws,
the function exits with the object state exactly as mutated so far
(`false` = the `InvalidLnkFile` exception escaped). -/
def step (r : Option α) (k : α → ParsedLink → ParsedLink × Bool) (s : ParsedLink) :
    ParsedLink × Bool :=
  match r with
  | none => (s, false)
  | some v => k v s

/-- One `if(flags & Flag::...)` block of the string section: read a
length-prefixed string at `nextLocation`, store it with `set`, and pass the
new `nextLocation` on to `k`; if the bit is clear, pass `nextLocation`
through unchanged. -/
def flagStep (bytes : List Nat) (flags bit nextLocation : Nat)
    (set : List Nat → ParsedLink → ParsedLink)
    (k : Nat → ParsedLink → ParsedLink × Bool) (s : ParsedLink) : ParsedLink × Bool :=
  if flags &&& bit ≠ 0 then
    step (readStringWithPrependedLength bytes nextLocation)
      (fun data s => k data.2 (set data.1 s)) s
  else k nextLocation s

/-- The `if(flags & Flag::HasCustomIcon)` block (lines 234-237): icon path
from the running cursor, icon index from absolute offset 56. -/
def iconSection (bytes : List Nat) (flags nextLocation : Nat) (s : ParsedLink) :
    ParsedLink × Bool :=
  if flags &&& 0x40 ≠ 0 then
    step (readStringWithPrependedLength bytes nextLocation) (fun data s =>
    step (readInteger 4 bytes 56) (fun idx s =>
      ({ s with iconIndex := idx }, true)) { s with iconPath := data.1 }) s
  else (s, true)

/-- The "Additional info" section of `refresh` (lines 211-237): flag byte at
20, string-section cursor `start + uint32(start)` (`uint32` sum), then the
four flag-driven string fields in order, then the icon block. -/
def stringSection (bytes : List Nat) (start : Nat) (s : ParsedLink) : ParsedLink × Bool :=
  step (readInteger 1 bytes 20) (fun flags s =>
  step (readInteger 4 bytes start) (fun v s =>
  flagStep bytes flags 0x04 ((start + v) % 2 ^ 32) (fun d s => { s with description := d })
  (fun nextLocation s =>
  flagStep bytes flags 0x08 nextLocation (fun d s => { s with relativeTargetPath := d })
  (fun nextLocation s =>
  flagStep bytes flags 0x10 nextLocation (fun d s => { s with workingDirectory := d })
  (fun nextLocation s =>
  flagStep bytes flags 0x20 nextLocation (fun d s => { s with commandLineArgs := d })
  (fun nextLocation s =>
  iconSection bytes flags nextLocation s) s) s) s) s) s) s

/-- Lines 207-209 of `refresh`: with the extended (0x24) LinkInfo variant the
target path is replaced by a fixed-length UTF-16 read whose offset and byte
length are computed from the current (UTF-8) target path. -/
def unicodeOverride (bytes : List Nat) (fileinfoHeader pathOffset start : Nat)
    (s : ParsedLink) : ParsedLink × Bool :=
  if fileinfoHeader = 0x24 then
    step (readFixedLengthString bytes (pathOffset + s.targetPath.length) (s.targetPath.length * 2))
      (fun up s => stringSection bytes start { s with targetPath := up }) s
  else stringSection bytes start s

/-- The network branch of "Path and volume info" (lines 188-198).
`volumeOffset` and its small additions are `uint32_t` arithmetic. -/
def networkBranch (bytes : List Nat) (start fileinfoHeader : Nat) (s : ParsedLink) :
    ParsedLink × Bool :=
  step (readInteger 4 bytes (start + 20)) (fun v s =>
  let volumeOffset := (start + v) % 2 ^ 32
  step (readNullTerminatedString bytes ((volumeOffset + 20) % 2 ^ 32)) (fun volumeName s =>
  let pathOffset := (volumeOffset + 21) % 2 ^ 32 + volumeName.length
  step (readNullTerminatedString bytes pathOffset) (fun targetDrive s =>
  let pathOffset := pathOffset + targetDrive.length + 1
  step (readNullTerminatedString bytes pathOffset) (fun rest s =>
  unicodeOverride bytes fileinfoHeader pathOffset start
    { s with targetPath := targetDrive ++ [0x5C] ++ rest }) s)
  { s with targetVolumeName := volumeName })
  { s with targetVolumeType := 4, targetVolumeSerial := 0 }) s

/-- The local branch of "Path and volume info" (lines 200-205).  The
`static_cast<VolumeType>` to the `uint8_t`-based enum reduces mod 256. -/
def localBranch (bytes : List Nat) (start fileinfoHeader : Nat) (s : ParsedLink) :
    ParsedLink × Bool :=
  step (readInteger 4 bytes (start + 12)) (fun v s =>
  let volumeOffset := (start + v) % 2 ^ 32
  step (readInteger 4 bytes ((volumeOffset + 4) % 2 ^ 32)) (fun vt s =>
  step (readInteger 4 bytes ((volumeOffset + 8) % 2 ^ 32)) (fun serial s =>
  step (readNullTerminatedString bytes ((volumeOffset + 16) % 2 ^ 32)) (fun volumeName s =>
  step (readInteger 4 bytes (start + 16)) (fun pv s =>
  let pathOffset := (start + pv) % 2 ^ 32
  step (readNullTerminatedString bytes pathOffset) (fun path s =>
  unicodeOverride bytes fileinfoHeader pathOffset start { s with targetPath := path }) s)
  { s with targetVolumeName := volumeName })
  { s with targetVolumeSerial := serial })
  { s with targetVolumeType := vt % 2 ^ 8 }) s) s

/-- `LnkFileInfo::refresh` on an already-read byte buffer, acting on the
current object state `s0` (the file-opening `IoError` path is outside this
model).  Returns the object state after the call together with `true` on
normal return and `false` when `InvalidLnkFile` escaped; in the latter case
the state keeps every mutation made before the throw, exactly as the C++
object does. -/
def refreshState (bytes : List Nat) (s0 : ParsedLink) : ParsedLink × Bool :=
  step (readInteger 1 bytes 0) (fun magic s =>
  if magic ≠ 0x4C then (s, false) else
  step (readInteger 2 bytes 76) (fun v s =>
  let start := (78 + v) % 2 ^ 16
  step (readInteger 1 bytes (start + 4)) (fun fileinfoHeader s =>
  if fileinfoHeader ≠ 0x1C ∧ fileinfoHeader ≠ 0x24 then (s, false) else
  step (readInteger 2 bytes 24) (fun attrs s =>
  step (readInteger 4 bytes 52) (fun size s =>
  step (readInteger 1 bytes (start + 8)) (fun net s =>
  if net &&& 0x02 ≠ 0 then
    networkBranch bytes start fileinfoHeader { s with targetIsOnNetwork := true }
  else
    localBranch bytes start fileinfoHeader { s with targetIsOnNetwork := false })
  { s with targetSize := size })
  { s with targetAttributes := attrs }) s) s) s) s0

/-- The constructor path `LnkFileInfo(filePath)` as seen by a caller: the
object is exposed only when `refresh` returns normally; a throwing
constructor exposes nothing (`none`).  The integer members are
indeterminate before `refresh` runs, hence the `init` parameter. -/
def decode (bytes : List Nat) (init : ParsedLink) : Option ParsedLink :=
  match refreshState bytes init with
  | (s, true) => some s
  | (_, false) => none

/-- The standard UTF-8 encoding of a Unicode scalar value (reference
definition, written from the UTF-8 byte-length table of the spec; compared
against the decoder's own `utf8Encode`). -/
def utf8Spec (cp : Nat) : List Nat :=
  if cp < 0x80 then [cp]
  else if cp < 0x800 then [0xC0 + cp / 64, 0x80 + cp % 64]
  else if cp < 0x10000 then [0xE0 + cp / 4096, 0x80 + cp / 64 % 64, 0x80 + cp % 64]
  else [0xF0 + cp / 262144, 0x80 + cp / 4096 % 64, 0x80 + cp / 64 % 64, 0x80 + cp % 64]

/-- The standard UTF-16 little-endian encoding of a Unicode scalar value
(reference definition): one code unit for the BMP, a high/low surrogate
pair above U+FFFF. -/
def utf16EncodeSpec (cp : Nat) : List Nat :=
  if cp ≤ 0xFFFF then [cp % 256, cp / 256]
  else
    let hi := 0xD800 + (cp - 0x10000) / 1024
    let lo := 0xDC00 + (cp - 0x10000) % 1024
    [hi % 256, hi / 256, lo % 256, lo / 256]

/-- Modelled from the spec (claim C2 wording): a fixed-byte-length UTF-16
read whose first code unit sits exactly at `offset` — the position
"immediately following the null-terminated Latin-1 target path" when called
with `offset` = path offset + path length + 1.  Differs from the decoder's
`readFixedLengthSpan` only in the absence of the internal `+ 2` skip. -/
def readFixedLengthSpanSpec (bytes : List Nat) (offset length : Nat) :
    Nat → Nat → Option (List Nat)
  | 0, i => if i < length then none else some []
  | fuel + 1, i =>
    if i < length then
      (readUtf16Codepoint bytes (i + offset) bytes.length).bind fun cb =>
      (readFixedLengthSpanSpec bytes offset length fuel (i + cb.2)).map (cb.1 ++ ·)
    else some []

/-- Modelled from the spec: the fixed-byte-length UTF-16 string field as the
claim describes it, starting exactly at `offset`. -/
def readFixedLengthStringSpec (bytes : List Nat) (offset length : Nat) : Option (List Nat) :=
  readFixedLengthSpanSpec bytes offset length (length + 1) 0

/-- Test-fixture helper: a buffer of `len` zero bytes with the given
`(index, value)` entries set. -/
def mkBuffer (len : Nat) (assignments : List (Nat × Nat)) : List Nat :=
  (List.range len).map (fun i => ((assignments.filter (fun p => p.1 = i)).headD (0, 0)).2)

/-- A well-formed local-target buffer: magic 0x4C, LinkInfo at 78 with the
legacy 0x1C structure size, local volume table at 100 (type 3, serial 1,
empty name), empty target path at 117, no string-section flags. -/
def bufLocalPlain : List Nat :=
  mkBuffer 118 [(0, 0x4C), (82, 0x1C), (90, 22), (94, 39), (104, 3), (108, 1)]

/-- `bufLocalPlain` with the `HasDescription` flag set and the string-section
cursor wrapped (uint32 0xFFFFFFC4 at offset 78) so that the description
field's first UTF-16 code unit is read from offsets 20-21, i.e. from the
flag byte itself. -/
def bufFlagOverlapA : List Nat :=
  mkBuffer 118 [(0, 0x4C), (18, 1), (20, 0x04), (78, 0xC4), (79, 0xFF), (80, 0xFF),
    (81, 0xFF), (82, 0x1C), (90, 22), (94, 39), (104, 3), (108, 1)]

/-- `bufFlagOverlapA` with bit 0x01 (`HasShellIdList`) of the flag byte also
set; it differs from `bufFlagOverlapA` only in the two lowest bits of the
byte at offset 20. -/
def bufFlagOverlapB : List Nat :=
  mkBuffer 118 [(0, 0x4C), (18, 1), (20, 0x05), (78, 0xC4), (79, 0xFF), (80, 0xFF),
    (81, 0xFF), (82, 0x1C), (90, 22), (94, 39), (104, 3), (108, 1)]

/-- A buffer that passes the magic and structure-size checks, lets the
target-attribute read at 24 succeed (value 7), and then fails at the
network-flag read at 86 (length is only 83). -/
def bufLateFailure : List Nat :=
  mkBuffer 83 [(0, 0x4C), (24, 7), (82, 0x1C)]

/-- A network-target buffer with the extended 0x24 structure size: share
info at 108, empty volume name, drive "D:" at 129, remainder "T" at 132;
the fixed-length Unicode read then yields "QQQQ" from offsets 138-145. -/
def bufNetworkUnicode : List Nat :=
  mkBuffer 146 [(0, 0x4C), (82, 0x24), (86, 2), (98, 30), (129, 0x44), (130, 0x3A),
    (132, 0x54), (138, 0x51), (140, 0x51), (142, 0x51), (144, 0x51)]

/-- `bufLocalPlain` with bit 0x01 (`HasShellIdList`) of the flag byte set:
differs from `bufLocalPlain` only in the lowest bit of the byte at 20, and
no computed field offset overlaps offset 20. -/
def bufShellBit : List Nat :=
  mkBuffer 118 [(0, 0x4C), (20, 0x01), (82, 0x1C), (90, 22), (94, 39), (104, 3), (108, 1)]

/-- A network-target buffer with the legacy 0x1C structure size: share info
at 108, empty volume name (null at 128), drive "D:" at 129, remainder "T"
at 132. -/
def bufNetworkPlain : List Nat :=
  mkBuffer 134 [(0, 0x4C), (82, 0x1C), (86, 2), (98, 30), (129, 0x44), (130, 0x3A),
    (132, 0x54)]

/-- A local-target buffer with the extended 0x24 structure size: Latin-1
target path "A" at offset 120 (null at 121), byte 0x58 at 122 and 0x59 at
123.  The decoder's Unicode read starts at 123 and yields "Y"; a read
starting immediately after the null terminator (at 122) would instead see
the code unit 0x5958. -/
def bufLocalUnicode : List Nat :=
  mkBuffer 125 [(0, 0x4C), (82, 0x24), (90, 22), (94, 42), (104, 3), (108, 1),
    (120, 0x41), (122, 0x58), (123, 0x59)]

/-! ## Basic facts about the bounded little-endian reader -/

theorem byteAt_lt (bytes : List Nat) (k : Nat) : byteAt bytes k < 256 :=
  Nat.mod_lt _ (by omega)

theorem readInteger_eq_none {w i : Nat} {bytes : List Nat} (h : bytes.length < i + w) :
    readInteger w bytes i = none := by
  simp [readInteger]; omega

theorem readInteger_bound {w i v : Nat} {bytes : List Nat} (h : readInteger w bytes i = some v) :
    i + w ≤ bytes.length := by
  by_contra hc
  rw [readInteger_eq_none (by omega)] at h
  exact Option.noConfusion h

theorem readInteger_one {i : Nat} {bytes : List Nat} (h : i + 1 ≤ bytes.length) :
    readInteger 1 bytes i = some (byteAt bytes i) := by
  simp [readInteger, List.range_succ]
  omega

theorem readInteger_two {i : Nat} {bytes : List Nat} (h : i + 2 ≤ bytes.length) :
    readInteger 2 bytes i = some (byteAt bytes i + byteAt bytes (i + 1) * 256) := by
  simp [readInteger, List.range_succ]
  omega

theorem readInteger_four {i : Nat} {bytes : List Nat} (h : i + 4 ≤ bytes.length) :
    readInteger 4 bytes i = some (byteAt bytes i + byteAt bytes (i + 1) * 256 +
      byteAt bytes (i + 2) * 65536 + byteAt bytes (i + 3) * 16777216) := by
  simp [readInteger, List.range_succ]
  omega

theorem readInteger_one_inv {i v : Nat} {bytes : List Nat}
    (h : readInteger 1 bytes i = some v) : v = byteAt bytes i := by
  have hb := readInteger_bound h
  rw [readInteger_one hb] at h
  exact (Option.some_inj.mp h).symm

theorem readInteger_two_inv {i v : Nat} {bytes : List Nat}
    (h : readInteger 2 bytes i = some v) :
    v = byteAt bytes i + byteAt bytes (i + 1) * 256 := by
  have hb := readInteger_bound h
  rw [readInteger_two hb] at h
  exact (Option.some_inj.mp h).symm

theorem readInteger_two_lt {i v : Nat} {bytes : List Nat}
    (h : readInteger 2 bytes i = some v) : v < 65536 := by
  rw [readInteger_two_inv h]
  have h1 := byteAt_lt bytes i
  have h2 := byteAt_lt bytes (i + 1)
  omega

theorem foldr_byte_congr {b1 b2 : List Nat} {i : Nat}
    (l : List Nat) (hj : ∀ j ∈ l, byteAt b1 (i + j) = byteAt b2 (i + j)) (acc : Nat) :
    l.foldr (fun j acc => byteAt b1 (i + j) * 2 ^ (8 * j) + acc) acc =
    l.foldr (fun j acc => byteAt b2 (i + j) * 2 ^ (8 * j) + acc) acc := by
  induction l with
  | nil => rfl
  | cons x xs ih =>
    simp only [List.foldr_cons]
    rw [hj x (by simp), ih (fun j hjx => hj j (by simp [hjx]))]

theorem byteAt_cons_zero (a : Nat) (l : List Nat) : byteAt (a :: l) 0 = a % 256 := rfl

theorem byteAt_cons_succ (a : Nat) (l : List Nat) (k : Nat) :
    byteAt (a :: l) (k + 1) = byteAt l k := rfl

theorem byteAt_take {n k : Nat} {b : List Nat} (h : k < n) :
    byteAt (b.take n) k = byteAt b k := by
  unfold byteAt
  congr 1
  rcases Nat.lt_or_ge k b.length with hk | hk
  · rw [List.getD_eq_getElem _ _ (by simp; omega), List.getD_eq_getElem _ _ hk]
    simp [List.getElem_take]
  · rw [List.getD_eq_default _ _ (by simp; omega), List.getD_eq_default _ _ hk]

/-! ## Bit-level arithmetic bridges -/

theorem testBit_mul_pow_add (q r k i : Nat) (hr : r < 2 ^ k) :
    (q * 2 ^ k + r).testBit i = if i < k then r.testBit i else q.testBit (i - k) := by
  rcases Nat.lt_or_ge i k with h | h
  · rw [if_pos h]
    rw [Nat.testBit_to_div_mod, Nat.testBit_to_div_mod]
    have hk : (2 : Nat) ^ k = 2 ^ (k - i) * 2 ^ i := by
      rw [← pow_add]; congr 1; omega
    have h1 : (q * 2 ^ k + r) / 2 ^ i = r / 2 ^ i + q * 2 ^ (k - i) := by
      rw [hk, show q * (2 ^ (k - i) * 2 ^ i) + r = r + 2 ^ i * (q * 2 ^ (k - i)) by ring]
      exact Nat.add_mul_div_left r _ (Nat.pos_pow_of_pos i (by omega))
    have hpow : (2 : Nat) ^ (k - i) = 2 ^ (k - i - 1) * 2 := by
      rw [← pow_succ]; congr 1; omega
    have h2 : q * 2 ^ (k - i) = 2 * (q * 2 ^ (k - i - 1)) := by rw [hpow]; ring
    rw [h1, h2]
    apply decide_eq_decide.mpr
    omega
  · rw [if_neg (by omega)]
    rw [Nat.testBit_to_div_mod, Nat.testBit_to_div_mod]
    have h1 : (q * 2 ^ k + r) / 2 ^ i = q / 2 ^ (i - k) := by
      rw [show (2 : Nat) ^ i = 2 ^ k * 2 ^ (i - k) by rw [← pow_add]; congr 1; omega]
      rw [← Nat.div_div_eq_div_mul]
      congr 1
      rw [show q * 2 ^ k + r = r + 2 ^ k * q by ring]
      rw [Nat.add_mul_div_left r _ (Nat.pos_pow_of_pos k (by omega))]
      rw [Nat.div_eq_of_lt hr]
      omega
    rw [h1]

theorem testBit_mul_pow (a k i : Nat) :
    (a * 2 ^ k).testBit i = if i < k then false else a.testBit (i - k) := by
  have := testBit_mul_pow_add a 0 k i (Nat.pos_pow_of_pos k (by omega))
  simpa using this

theorem lor_mul_pow {k a b : Nat} (hb : b < 2 ^ k) : a * 2 ^ k ||| b = a * 2 ^ k + b := by
  apply Nat.eq_of_testBit_eq
  intro i
  rw [Nat.testBit_or, testBit_mul_pow, testBit_mul_pow_add a b k i hb]
  rcases Nat.lt_or_ge i k with h | h
  · simp [if_pos h]
  · rw [if_neg (by omega), if_neg (by omega)]
    rw [Nat.testBit_lt_two_pow (lt_of_lt_of_le hb (Nat.pow_le_pow_right (by omega) h))]
    simp

theorem land_mul_pow (m : Nat) {k q r : Nat} (hr : r < 2 ^ k) :
    (q * 2 ^ k + r) &&& m * 2 ^ k = (q &&& m) * 2 ^ k := by
  apply Nat.eq_of_testBit_eq
  intro i
  rw [Nat.testBit_and, testBit_mul_pow_add q r k i hr, testBit_mul_pow, testBit_mul_pow,
    Nat.testBit_and]
  rcases Nat.lt_or_ge i k with h | h
  · simp [if_pos h]
  · rw [if_neg (by omega), if_neg (by omega), if_neg (by omega)]

theorem and_F800 {x : Nat} (hx : x < 2 ^ 16) : x &&& 0xF800 = x / 2048 * 2048 := by
  have hd : x = x / 2 ^ 11 * 2 ^ 11 + x % 2 ^ 11 := by omega
  have h0 : (0xF800 : Nat) = 31 * 2 ^ 11 := by norm_num
  rw [h0]
  conv_lhs => rw [hd]
  rw [land_mul_pow 31 (Nat.mod_lt _ (by norm_num))]
  rw [show (31 : Nat) = 2 ^ 5 - 1 by norm_num, Nat.and_pow_two_sub_one_eq_mod]
  have hq : x / 2 ^ 11 < 2 ^ 5 := by omega
  rw [Nat.mod_eq_of_lt hq]
  norm_num

theorem and_FC00 {x : Nat} (hx : x < 2 ^ 16) : x &&& 0xFC00 = x / 1024 * 1024 := by
  have hd : x = x / 2 ^ 10 * 2 ^ 10 + x % 2 ^ 10 := by omega
  have h0 : (0xFC00 : Nat) = 63 * 2 ^ 10 := by norm_num
  rw [h0]
  conv_lhs => rw [hd]
  rw [land_mul_pow 63 (Nat.mod_lt _ (by norm_num))]
  rw [show (63 : Nat) = 2 ^ 6 - 1 by norm_num, Nat.and_pow_two_sub_one_eq_mod]
  have hq : x / 2 ^ 10 < 2 ^ 6 := by omega
  rw [Nat.mod_eq_of_lt hq]
  norm_num

theorem and_3FF (x : Nat) : x &&& 0x3FF = x % 1024 := by
  simpa using Nat.and_pow_two_sub_one_eq_mod x 10

theorem and_3F (x : Nat) : x &&& 0x3F = x % 64 := by
  simpa using Nat.and_pow_two_sub_one_eq_mod x 6

theorem and_7F (x : Nat) : x &&& 0x7F = x % 128 := by
  simpa using Nat.and_pow_two_sub_one_eq_mod x 7

theorem and_1F (x : Nat) : x &&& 0x1F = x % 32 := by
  simpa using Nat.and_pow_two_sub_one_eq_mod x 5

theorem and_0F (x : Nat) : x &&& 0x0F = x % 16 := by
  simpa using Nat.and_pow_two_sub_one_eq_mod x 4

theorem and_07 (x : Nat) : x &&& 0x07 = x % 8 := by
  simpa using Nat.and_pow_two_sub_one_eq_mod x 3

theorem or_80 {x : Nat} (h : x < 128) : x ||| 0x80 = 0x80 + x := by
  rw [Nat.lor_comm, show (0x80 : Nat) = 1 * 2 ^ 7 by norm_num, lor_mul_pow (by omega)]

theorem or_C0 {x : Nat} (h : x < 64) : x ||| 0xC0 = 0xC0 + x := by
  rw [Nat.lor_comm, show (0xC0 : Nat) = 3 * 2 ^ 6 by norm_num, lor_mul_pow (by omega)]

theorem or_E0 {x : Nat} (h : x < 32) : x ||| 0xE0 = 0xE0 + x := by
  rw [Nat.lor_comm, show (0xE0 : Nat) = 7 * 2 ^ 5 by norm_num, lor_mul_pow (by omega)]

theorem or_F0 {x : Nat} (h : x < 16) : x ||| 0xF0 = 0xF0 + x := by
  rw [Nat.lor_comm, show (0xF0 : Nat) = 15 * 2 ^ 4 by norm_num, lor_mul_pow (by omega)]

theorem shl10_or {q r : Nat} (hr : r < 1024) : q <<< 10 ||| r = q * 1024 + r := by
  rw [Nat.shiftLeft_eq, show (2 : Nat) ^ 10 = 1024 by norm_num,
    show (1024 : Nat) = 2 ^ 10 by norm_num, lor_mul_pow (by omega)]

theorem shr6 (x : Nat) : x >>> 6 = x / 64 :=
  Nat.shiftRight_eq_div_pow x 6

/-! ## The decoder's UTF-8 serialisation agrees with the standard table -/

theorem utf8Encode_eq_spec {cp : Nat} (h : cp ≤ 0x10FFFF) : utf8Encode cp = utf8Spec cp := by
  rcases Nat.lt_or_ge cp 0x80 with h1 | h1
  · have e1 : ¬ (cp > 0xFFFF) := by omega
    have e2 : ¬ (cp > 0x7FF) := by omega
    have e3 : ¬ (cp > 0x7F) := by omega
    simp only [utf8Encode, utf8Spec]
    rw [if_neg e1, if_neg e2, if_neg e3, if_pos h1]
    norm_num [utf8EncodeAux, continuationParams]
    rw [and_7F, Nat.mod_eq_of_lt h1]
  · rcases Nat.lt_or_ge cp 0x800 with h2 | h2
    · have e1 : ¬ (cp > 0xFFFF) := by omega
      have e2 : ¬ (cp > 0x7FF) := by omega
      have e3 : cp > 0x7F := by omega
      simp only [utf8Encode, utf8Spec]
      rw [if_neg e1, if_neg e2, if_pos e3, if_neg (by omega), if_pos h2]
      norm_num [utf8EncodeAux, continuationParams]
      rw [shr6, and_3F, and_1F, or_80 (by omega), or_C0 (by omega)]
      have hm : cp / 64 % 32 = cp / 64 := Nat.mod_eq_of_lt (by omega)
      rw [hm]
      omega
    · rcases Nat.lt_or_ge cp 0x10000 with h3 | h3
      · have e1 : ¬ (cp > 0xFFFF) := by omega
        have e2 : cp > 0x7FF := by omega
        simp only [utf8Encode, utf8Spec]
        rw [if_neg e1, if_pos e2, if_neg (by omega), if_neg (by omega), if_pos h3]
        norm_num [utf8EncodeAux, continuationParams]
        rw [shr6, shr6, and_3F, and_3F, and_0F, or_80 (by omega), or_80 (by omega),
          or_E0 (by omega)]
        have hd : cp / 64 / 64 = cp / 4096 := by omega
        rw [hd]
        have hm : cp / 4096 % 16 = cp / 4096 := Nat.mod_eq_of_lt (by omega)
        rw [hm]
        omega
      · have e1 : cp > 0xFFFF := by omega
        simp only [utf8Encode, utf8Spec]
        rw [if_pos e1, if_neg (by omega), if_neg (by omega), if_neg (by omega)]
        norm_num [utf8EncodeAux, continuationParams]
        rw [shr6, shr6, shr6, and_3F, and_3F, and_3F, and_07, or_80 (by omega),
          or_80 (by omega), or_80 (by omega), or_F0 (by omega)]
        have hd1 : cp / 64 / 64 = cp / 4096 := by omega
        have hd2 : cp / 64 / 64 / 64 = cp / 262144 := by omega
        rw [hd2, hd1]
        have hm : cp / 262144 % 8 = cp / 262144 := Nat.mod_eq_of_lt (by omega)
        rw [hm]
        omega

/-! ## Rewriting helpers for the sequencing combinator -/

theorem step_some {α : Type} (v : α) (k : α → ParsedLink → ParsedLink × Bool) (s : ParsedLink) :
    step (some v) k s = k v s := rfl

theorem step_none {α : Type} (k : α → ParsedLink → ParsedLink × Bool) (s : ParsedLink) :
    step (none : Option α) k s = (s, false) := rfl

theorem step_success {α : Type} {r : Option α} {k : α → ParsedLink → ParsedLink × Bool}
    {s s2 : ParsedLink} (h : step r k s = (s2, true)) :
    ∃ v, r = some v ∧ k v s = (s2, true) := by
  cases r with
  | none => exact absurd (congrArg Prod.snd h) (by simp [step])
  | some v => exact ⟨v, rfl, h⟩

theorem fail_ne_success {s s2 : ParsedLink} (h : (s, false) = (s2, true)) : False := by
  simpa using congrArg Prod.snd h

/-! ## Field preservation through the string section -/

theorem step_proj {α β : Type} (f : ParsedLink → β) (r : Option α)
    (k : α → ParsedLink → ParsedLink × Bool) (s : ParsedLink)
    (hk : ∀ v s, f (k v s).1 = f s) : f (step r k s).1 = f s := by
  cases r with
  | none => rfl
  | some v => exact hk v s

theorem flagStep_proj {β : Type} (f : ParsedLink → β) (bytes : List Nat)
    (flags bit nl : Nat) (set : List Nat → ParsedLink → ParsedLink)
    (k : Nat → ParsedLink → ParsedLink × Bool) (s : ParsedLink)
    (hset : ∀ d s, f (set d s) = f s) (hk : ∀ nl s, f (k nl s).1 = f s) :
    f (flagStep bytes flags bit nl set k s).1 = f s := by
  unfold flagStep
  split
  · apply step_proj
    intro v s2
    rw [hk, hset]
  · exact hk nl s

theorem iconSection_proj {β : Type} (f : ParsedLink → β) (bytes : List Nat)
    (flags nl : Nat) (s : ParsedLink)
    (h5 : ∀ d s, f { s with iconPath := d } = f s)
    (h6 : ∀ d s, f { s with iconIndex := d } = f s) :
    f (iconSection bytes flags nl s).1 = f s := by
  unfold iconSection
  split
  · apply step_proj
    intro d s2
    rw [step_proj f _ _ _ (fun idx s3 => h6 idx s3), h5]
  · rfl

theorem stringSection_proj {β : Type} (f : ParsedLink → β) (bytes : List Nat)
    (start : Nat) (s : ParsedLink)
    (h1 : ∀ d s, f { s with description := d } = f s)
    (h2 : ∀ d s, f { s with relativeTargetPath := d } = f s)
    (h3 : ∀ d s, f { s with workingDirectory := d } = f s)
    (h4 : ∀ d s, f { s with commandLineArgs := d } = f s)
    (h5 : ∀ d s, f { s with iconPath := d } = f s)
    (h6 : ∀ d s, f { s with iconIndex := d } = f s) :
    f (stringSection bytes start s).1 = f s := by
  unfold stringSection
  apply step_proj
  intro flags s2
  apply step_proj
  intro v s3
  apply flagStep_proj f _ _ _ _ _ _ _ h1
  intro n1 s4
  apply flagStep_proj f _ _ _ _ _ _ _ h2
  intro n2 s5
  apply flagStep_proj f _ _ _ _ _ _ _ h3
  intro n3 s6
  apply flagStep_proj f _ _ _ _ _ _ _ h4
  intro n4 s7
  exact iconSection_proj f _ _ _ _ h5 h6

/-! ## Structure of a successful parse -/

theorem refresh_success_structure (bytes : List Nat) (init s : ParsedLink)
    (hok : refreshState bytes init = (s, true)) :
    ∃ v fh attrs size nf,
      readInteger 2 bytes 76 = some v ∧
      readInteger 1 bytes ((78 + v) % 2 ^ 16 + 4) = some fh ∧
      (fh = 0x1C ∨ fh = 0x24) ∧
      readInteger 2 bytes 24 = some attrs ∧
      readInteger 4 bytes 52 = some size ∧
      readInteger 1 bytes ((78 + v) % 2 ^ 16 + 8) = some nf ∧
      ((nf &&& 0x02 ≠ 0 →
        networkBranch bytes ((78 + v) % 2 ^ 16) fh
          { init with
            targetAttributes := attrs
            targetSize := size
            targetIsOnNetwork := true } = (s, true)) ∧
       (nf &&& 0x02 = 0 →
        localBranch bytes ((78 + v) % 2 ^ 16) fh
          { init with
            targetAttributes := attrs
            targetSize := size
            targetIsOnNetwork := false } = (s, true))) := by
  unfold refreshState at hok
  obtain ⟨m, hm, hok⟩ := step_success hok
  by_cases hm4C : m = 0x4C
  · rw [if_neg (by simp [hm4C])] at hok
    obtain ⟨v, hv, hok⟩ := step_success hok
    simp only [] at hok
    obtain ⟨fh, hfh, hok⟩ := step_success hok
    by_cases hfhok : fh ≠ 0x1C ∧ fh ≠ 0x24
    · rw [if_pos hfhok] at hok
      exact absurd hok fail_ne_success
    · rw [if_neg hfhok] at hok
      obtain ⟨attrs, hattrs, hok⟩ := step_success hok
      obtain ⟨size, hsize, hok⟩ := step_success hok
      obtain ⟨nf, hnf, hok⟩ := step_success hok
      refine ⟨v, fh, attrs, size, nf, hv, hfh, by tauto, hattrs, hsize, hnf, ?_, ?_⟩
      · intro hnet
        rwa [if_pos hnet] at hok
      · intro hnet
        rwa [if_neg (by simp [hnet])] at hok
  · rw [if_pos hm4C] at hok
    exact absurd hok fail_ne_success

theorem networkBranch_success (bytes : List Nat) (start fh : Nat) (s0 s : ParsedLink)
    (hok : networkBranch bytes start fh s0 = (s, true)) :
    ∃ v20 volumeName targetDrive rest,
      readInteger 4 bytes (start + 20) = some v20 ∧
      readNullTerminatedString bytes (((start + v20) % 2 ^ 32 + 20) % 2 ^ 32) = some volumeName ∧
      readNullTerminatedString bytes
        (((start + v20) % 2 ^ 32 + 21) % 2 ^ 32 + volumeName.length) = some targetDrive ∧
      readNullTerminatedString bytes
        (((start + v20) % 2 ^ 32 + 21) % 2 ^ 32 + volumeName.length + targetDrive.length + 1)
        = some rest ∧
      unicodeOverride bytes fh
        (((start + v20) % 2 ^ 32 + 21) % 2 ^ 32 + volumeName.length + targetDrive.length + 1)
        start
        { s0 with
          targetVolumeType := 4
          targetVolumeSerial := 0
          targetVolumeName := volumeName
          targetPath := targetDrive ++ [0x5C] ++ rest } = (s, true) := by
  unfold networkBranch at hok
  obtain ⟨v20, hv20, hok⟩ := step_success hok
  simp only [] at hok
  obtain ⟨volumeName, hvn, hok⟩ := step_success hok
  obtain ⟨targetDrive, hdrv, hok⟩ := step_success hok
  obtain ⟨rest, hrst, hok⟩ := step_success hok
  exact ⟨v20, volumeName, targetDrive, rest, hv20, hvn, hdrv, hrst, hok⟩

theorem localBranch_success (bytes : List Nat) (start fh : Nat) (s0 s : ParsedLink)
    (hok : localBranch bytes start fh s0 = (s, true)) :
    ∃ v12 vt serial volumeName pv path,
      readInteger 4 bytes (start + 12) = some v12 ∧
      readInteger 4 bytes (((start + v12) % 2 ^ 32 + 4) % 2 ^ 32) = some vt ∧
      readInteger 4 bytes (((start + v12) % 2 ^ 32 + 8) % 2 ^ 32) = some serial ∧
      readNullTerminatedString bytes (((start + v12) % 2 ^ 32 + 16) % 2 ^ 32) = some volumeName ∧
      readInteger 4 bytes (start + 16) = some pv ∧
      readNullTerminatedString bytes ((start + pv) % 2 ^ 32) = some path ∧
      unicodeOverride bytes fh ((start + pv) % 2 ^ 32) start
        { s0 with
          targetVolumeType := vt % 2 ^ 8
          targetVolumeSerial := serial
          targetVolumeName := volumeName
          targetPath := path } = (s, true) := by
  unfold localBranch at hok
  obtain ⟨v12, hv12, hok⟩ := step_success hok
  simp only [] at hok
  obtain ⟨vt, hvt, hok⟩ := step_success hok
  obtain ⟨serial, hserial, hok⟩ := step_success hok
  obtain ⟨volumeName, hvn, hok⟩ := step_success hok
  obtain ⟨pv, hpv, hok⟩ := step_success hok
  obtain ⟨path, hpath, hok⟩ := step_success hok
  exact ⟨v12, vt, serial, volumeName, pv, path, hv12, hvt, hserial, hvn, hpv, hpath, hok⟩

theorem unicodeOverride_success (bytes : List Nat) (fh po start : Nat) (s0 s : ParsedLink)
    (hok : unicodeOverride bytes fh po start s0 = (s, true)) :
    (fh ≠ 0x24 → stringSection bytes start s0 = (s, true)) ∧
    (fh = 0x24 → ∃ up,
      readFixedLengthString bytes (po + s0.targetPath.length) (s0.targetPath.length * 2)
        = some up ∧
      stringSection bytes start { s0 with targetPath := up } = (s, true)) := by
  unfold unicodeOverride at hok
  by_cases h24 : fh = 0x24
  · rw [if_pos h24] at hok
    obtain ⟨up, hup, hok⟩ := step_success hok
    exact ⟨fun hc => absurd h24 hc, fun _ => ⟨up, hup, hok⟩⟩
  · rw [if_neg h24] at hok
    exact ⟨fun _ => hok, fun hc => absurd hc h24⟩

theorem stringSection_success_fields (bytes : List Nat) (start : Nat) (s0 s : ParsedLink)
    (hok : stringSection bytes start s0 = (s, true)) :
    s.targetPath = s0.targetPath ∧ s.targetVolumeName = s0.targetVolumeName ∧
    s.targetSize = s0.targetSize ∧ s.targetVolumeSerial = s0.targetVolumeSerial ∧
    s.targetAttributes = s0.targetAttributes ∧ s.targetVolumeType = s0.targetVolumeType ∧
    s.targetIsOnNetwork = s0.targetIsOnNetwork := by
  have h1 := stringSection_proj ParsedLink.targetPath bytes start s0
    (fun _ _ => rfl) (fun _ _ => rfl) (fun _ _ => rfl) (fun _ _ => rfl)
    (fun _ _ => rfl) (fun _ _ => rfl)
  have h2 := stringSection_proj ParsedLink.targetVolumeName bytes start s0
    (fun _ _ => rfl) (fun _ _ => rfl) (fun _ _ => rfl) (fun _ _ => rfl)
    (fun _ _ => rfl) (fun _ _ => rfl)
  have h3 := stringSection_proj ParsedLink.targetSize bytes start s0
    (fun _ _ => rfl) (fun _ _ => rfl) (fun _ _ => rfl) (fun _ _ => rfl)
    (fun _ _ => rfl) (fun _ _ => rfl)
  have h4 := stringSection_proj ParsedLink.targetVolumeSerial bytes start s0
    (fun _ _ => rfl) (fun _ _ => rfl) (fun _ _ => rfl) (fun _ _ => rfl)
    (fun _ _ => rfl) (fun _ _ => rfl)
  have h5 := stringSection_proj ParsedLink.targetAttributes bytes start s0
    (fun _ _ => rfl) (fun _ _ => rfl) (fun _ _ => rfl) (fun _ _ => rfl)
    (fun _ _ => rfl) (fun _ _ => rfl)
  have h6 := stringSection_proj ParsedLink.targetVolumeType bytes start s0
    (fun _ _ => rfl) (fun _ _ => rfl) (fun _ _ => rfl) (fun _ _ => rfl)
    (fun _ _ => rfl) (fun _ _ => rfl)
  have h7 := stringSection_proj ParsedLink.targetIsOnNetwork bytes start s0
    (fun _ _ => rfl) (fun _ _ => rfl) (fun _ _ => rfl) (fun _ _ => rfl)
    (fun _ _ => rfl) (fun _ _ => rfl)
  rw [hok] at h1 h2 h3 h4 h5 h6 h7
  exact ⟨h1, h2, h3, h4, h5, h6, h7⟩

/-! ## Congruence: runs on buffers that differ only in bits 0-1 of byte 20 -/

theorem byteAt_congr {b1 b2 : List Nat} (hag : ∀ k, k ≠ 20 → b1.getD k 0 = b2.getD k 0)
    {k : Nat} (hk : k ≠ 20) : byteAt b1 k = byteAt b2 k := by
  unfold byteAt
  rw [hag k hk]

theorem readInteger_congr {b1 b2 : List Nat} (hlen : b2.length = b1.length)
    (hag : ∀ k, k ≠ 20 → b1.getD k 0 = b2.getD k 0)
    (w i : Nat) (hi : ∀ j, j < w → i + j ≠ 20) :
    readInteger w b1 i = readInteger w b2 i := by
  unfold readInteger
  rw [hlen]
  split
  · rfl
  · rw [Option.some_inj]
    exact foldr_byte_congr _ (fun j hj => byteAt_congr hag (hi j (List.mem_range.mp hj))) 0

theorem readNTSAux_congr {b1 b2 : List Nat} (hlen : b2.length = b1.length)
    (hag : ∀ k, k ≠ 20 → b1.getD k 0 = b2.getD k 0) :
    ∀ fuel i, 21 ≤ i →
      readNullTerminatedStringAux b1 fuel i = readNullTerminatedStringAux b2 fuel i := by
  intro fuel
  induction fuel with
  | zero => intro i _; rfl
  | succ fuel ih =>
    intro i hi
    unfold readNullTerminatedStringAux
    rw [readInteger_congr hlen hag 1 i (by omega)]
    cases readInteger 1 b2 i with
    | none => rfl
    | some c =>
      simp only [Option.some_bind]
      split
      · rfl
      · rw [ih (i + 1) (by omega)]

theorem readNTS_congr {b1 b2 : List Nat} (hlen : b2.length = b1.length)
    (hag : ∀ k, k ≠ 20 → b1.getD k 0 = b2.getD k 0) (i : Nat) (hi : 21 ≤ i) :
    readNullTerminatedString b1 i = readNullTerminatedString b2 i := by
  unfold readNullTerminatedString
  rw [hlen]
  exact readNTSAux_congr hlen hag _ i hi

theorem readUtf16Codepoint_congr {b1 b2 : List Nat} (hlen : b2.length = b1.length)
    (hag : ∀ k, k ≠ 20 → b1.getD k 0 = b2.getD k 0) (i e : Nat) (hi : 21 ≤ i) :
    readUtf16Codepoint b1 i e = readUtf16Codepoint b2 i e := by
  unfold readUtf16Codepoint
  rw [readInteger_congr hlen hag 2 i (by omega),
    readInteger_congr hlen hag 2 (i + 2) (by omega)]

theorem readUtf16Span_congr {b1 b2 : List Nat} (hlen : b2.length = b1.length)
    (hag : ∀ k, k ≠ 20 → b1.getD k 0 = b2.getD k 0) (e : Nat) :
    ∀ fuel i, 21 ≤ i → readUtf16Span b1 e fuel i = readUtf16Span b2 e fuel i := by
  intro fuel
  induction fuel with
  | zero => intro i _; rfl
  | succ fuel ih =>
    intro i hi
    unfold readUtf16Span
    split
    · rw [readUtf16Codepoint_congr hlen hag i e hi]
      cases readUtf16Codepoint b2 i e with
      | none => rfl
      | some cb =>
        simp only [Option.some_bind]
        rw [ih (i + cb.2) (by omega)]
    · rfl

theorem readSWPL_congr {b1 b2 : List Nat} (hlen : b2.length = b1.length)
    (hag : ∀ k, k ≠ 20 → b1.getD k 0 = b2.getD k 0) (i : Nat) (hi : 21 ≤ i) :
    readStringWithPrependedLength b1 i = readStringWithPrependedLength b2 i := by
  unfold readStringWithPrependedLength
  rw [readInteger_congr hlen hag 2 i (by omega)]
  cases readInteger 2 b2 i with
  | none => rfl
  | some n =>
    simp only [Option.some_bind]
    rw [readUtf16Span_congr hlen hag (i + n * 2) (n + 1) (i + 2) (by omega)]

theorem readFixedLengthSpan_congr {b1 b2 : List Nat} (hlen : b2.length = b1.length)
    (hag : ∀ k, k ≠ 20 → b1.getD k 0 = b2.getD k 0) (offset length : Nat) (ho : 19 ≤ offset) :
    ∀ fuel i, readFixedLengthSpan b1 offset length fuel i =
      readFixedLengthSpan b2 offset length fuel i := by
  intro fuel
  induction fuel with
  | zero => intro i; rfl
  | succ fuel ih =>
    intro i
    unfold readFixedLengthSpan
    split
    · rw [hlen, readUtf16Codepoint_congr hlen hag (i + offset + 2) b1.length (by omega)]
      cases readUtf16Codepoint b2 (i + offset + 2) b1.length with
      | none => rfl
      | some cb =>
        simp only [Option.some_bind]
        rw [ih (i + cb.2)]
    · rfl

theorem readFixedLengthString_congr {b1 b2 : List Nat} (hlen : b2.length = b1.length)
    (hag : ∀ k, k ≠ 20 → b1.getD k 0 = b2.getD k 0) (offset length : Nat) (ho : 19 ≤ offset) :
    readFixedLengthString b1 offset length = readFixedLengthString b2 offset length := by
  unfold readFixedLengthString
  exact readFixedLengthSpan_congr hlen hag offset length ho _ 0

theorem readSWPL_offset {bytes : List Nat} {i : Nat} {d : List Nat × Nat}
    (h : readStringWithPrependedLength bytes i = some d) : i + 2 ≤ d.2 := by
  unfold readStringWithPrependedLength at h
  cases hr : readInteger 2 bytes i with
  | none => rw [hr, Option.none_bind] at h; exact Option.noConfusion h
  | some n =>
    rw [hr, Option.some_bind] at h
    cases hs : readUtf16Span bytes (i + n * 2) (n + 1) (i + 2) with
    | none => rw [hs, Option.map_none'] at h; exact Option.noConfusion h
    | some r =>
      rw [hs, Option.map_some'] at h
      have := (Option.some_inj.mp h)
      rw [← this]
      omega

theorem flag_bit_congr {x y : Nat} (h : x / 4 = y / 4) (i : Nat) (hi : 2 ≤ i) :
    x &&& 2 ^ i = y &&& 2 ^ i := by
  rw [Nat.and_two_pow, Nat.and_two_pow]
  congr 2
  rw [Nat.testBit_to_div_mod, Nat.testBit_to_div_mod]
  have hx : x / 2 ^ i = x / 4 / 2 ^ (i - 2) := by
    rw [Nat.div_div_eq_div_mul]
    congr 1
    rw [show (4 : Nat) = 2 ^ 2 by norm_num, ← pow_add]
    congr 1
    omega
  have hy : y / 2 ^ i = y / 4 / 2 ^ (i - 2) := by
    rw [Nat.div_div_eq_div_mul]
    congr 1
    rw [show (4 : Nat) = 2 ^ 2 by norm_num, ← pow_add]
    congr 1
    omega
  rw [hx, hy, h]

theorem flag_bits_congr {x y : Nat} (h : x / 4 = y / 4) :
    x &&& 0x04 = y &&& 0x04 ∧ x &&& 0x08 = y &&& 0x08 ∧ x &&& 0x10 = y &&& 0x10 ∧
    x &&& 0x20 = y &&& 0x20 ∧ x &&& 0x40 = y &&& 0x40 :=
  ⟨flag_bit_congr h 2 (by omega), flag_bit_congr h 3 (by omega), flag_bit_congr h 4 (by omega),
   flag_bit_congr h 5 (by omega), flag_bit_congr h 6 (by omega)⟩

theorem flagStep_congr {b1 b2 : List Nat} (hlen : b2.length = b1.length)
    (hag : ∀ k, k ≠ 20 → b1.getD k 0 = b2.getD k 0)
    {f1 f2 : Nat} (bit : Nat) (hbit : f1 &&& bit = f2 &&& bit)
    {nl : Nat} (hnl : 21 ≤ nl) (set : List Nat → ParsedLink → ParsedLink)
    {k1 k2 : Nat → ParsedLink → ParsedLink × Bool}
    (hk : ∀ nl2 s, 21 ≤ nl2 → k1 nl2 s = k2 nl2 s) (s : ParsedLink) :
    flagStep b1 f1 bit nl set k1 s = flagStep b2 f2 bit nl set k2 s := by
  unfold flagStep
  rw [hbit]
  split
  · rw [readSWPL_congr hlen hag nl hnl]
    cases hr : readStringWithPrependedLength b2 nl with
    | none => rw [step_none, step_none]
    | some d =>
      rw [step_some, step_some]
      exact hk d.2 (set d.1 s) (by have := readSWPL_offset hr; omega)
  · exact hk nl s hnl

theorem iconSection_congr {b1 b2 : List Nat} (hlen : b2.length = b1.length)
    (hag : ∀ k, k ≠ 20 → b1.getD k 0 = b2.getD k 0)
    {f1 f2 : Nat} (hbit : f1 &&& 0x40 = f2 &&& 0x40) {nl : Nat} (hnl : 21 ≤ nl)
    (s : ParsedLink) : iconSection b1 f1 nl s = iconSection b2 f2 nl s := by
  unfold iconSection
  rw [hbit]
  split
  · rw [readSWPL_congr hlen hag nl hnl, readInteger_congr hlen hag 4 56 (by omega)]
  · rfl

theorem stringSection_congr {b1 b2 : List Nat} (hlen : b2.length = b1.length)
    (hag : ∀ k, k ≠ 20 → b1.getD k 0 = b2.getD k 0)
    (h20 : byteAt b1 20 / 4 = byteAt b2 20 / 4)
    (start : Nat) (hstart : 78 ≤ start)
    (hnl : ∀ w, readInteger 4 b1 start = some w → 21 ≤ (start + w) % 2 ^ 32)
    (s : ParsedLink) : stringSection b1 start s = stringSection b2 start s := by
  unfold stringSection
  rcases Nat.lt_or_ge b1.length 21 with hsh | hsh
  · rw [readInteger_eq_none (show b1.length < 20 + 1 by omega),
      readInteger_eq_none (show b2.length < 20 + 1 by omega)]
    rw [step_none, step_none]
  · rw [readInteger_one (show 20 + 1 ≤ b1.length by omega),
      readInteger_one (show 20 + 1 ≤ b2.length by omega), step_some, step_some]
    have hrs : readInteger 4 b1 start = readInteger 4 b2 start :=
      readInteger_congr hlen hag 4 start (by omega)
    rw [hrs]
    cases hsr : readInteger 4 b2 start with
    | none => rw [step_none, step_none]
    | some w =>
      rw [step_some, step_some]
      obtain ⟨hb4, hb8, hb16, hb32, hb64⟩ := flag_bits_congr h20
      have hnl0 : 21 ≤ (start + w) % 2 ^ 32 := hnl w (hrs.trans hsr)
      apply flagStep_congr hlen hag 0x04 hb4 hnl0
      intro n1 s1 h1
      apply flagStep_congr hlen hag 0x08 hb8 h1
      intro n2 s2 h2
      apply flagStep_congr hlen hag 0x10 hb16 h2
      intro n3 s3 h3
      apply flagStep_congr hlen hag 0x20 hb32 h3
      intro n4 s4 h4
      exact iconSection_congr hlen hag hb64 h4 s4

theorem unicodeOverride_congr {b1 b2 : List Nat} (hlen : b2.length = b1.length)
    (hag : ∀ k, k ≠ 20 → b1.getD k 0 = b2.getD k 0)
    (h20 : byteAt b1 20 / 4 = byteAt b2 20 / 4)
    (fh po start : Nat) (hpo : 19 ≤ po) (hstart : 78 ≤ start)
    (hnl : ∀ w, readInteger 4 b1 start = some w → 21 ≤ (start + w) % 2 ^ 32)
    (s : ParsedLink) :
    unicodeOverride b1 fh po start s = unicodeOverride b2 fh po start s := by
  unfold unicodeOverride
  split
  · rw [readFixedLengthString_congr hlen hag (po + s.targetPath.length)
      (s.targetPath.length * 2) (by omega)]
    cases readFixedLengthString b2 (po + s.targetPath.length) (s.targetPath.length * 2) with
    | none => rw [step_none, step_none]
    | some up =>
      rw [step_some, step_some]
      exact stringSection_congr hlen hag h20 start hstart hnl _
  · exact stringSection_congr hlen hag h20 start hstart hnl s

theorem networkBranch_congr {b1 b2 : List Nat} (hlen : b2.length = b1.length)
    (hag : ∀ k, k ≠ 20 → b1.getD k 0 = b2.getD k 0)
    (h20 : byteAt b1 20 / 4 = byteAt b2 20 / 4)
    (start fh : Nat) (hstart : 78 ≤ start)
    (hvo : ∀ w, readInteger 4 b1 (start + 20) = some w →
      1 ≤ (start + w) % 2 ^ 32 ∧ (start + w) % 2 ^ 32 + 21 < 2 ^ 32)
    (hnl : ∀ w, readInteger 4 b1 start = some w → 21 ≤ (start + w) % 2 ^ 32)
    (s : ParsedLink) : networkBranch b1 start fh s = networkBranch b2 start fh s := by
  unfold networkBranch
  have h20r : readInteger 4 b1 (start + 20) = readInteger 4 b2 (start + 20) :=
    readInteger_congr hlen hag 4 (start + 20) (by omega)
  rw [h20r]
  cases hr : readInteger 4 b2 (start + 20) with
  | none => rw [step_none, step_none]
  | some w =>
    rw [step_some, step_some]
    simp only []
    obtain ⟨hv1, hv2⟩ := hvo w (h20r.trans hr)
    rw [readNTS_congr hlen hag (((start + w) % 2 ^ 32 + 20) % 2 ^ 32) (by omega)]
    cases readNullTerminatedString b2 (((start + w) % 2 ^ 32 + 20) % 2 ^ 32) with
    | none => rw [step_none, step_none]
    | some vn =>
      rw [step_some, step_some]
      rw [readNTS_congr hlen hag (((start + w) % 2 ^ 32 + 21) % 2 ^ 32 + vn.length)
        (by omega)]
      cases readNullTerminatedString b2 (((start + w) % 2 ^ 32 + 21) % 2 ^ 32 + vn.length) with
      | none => rw [step_none, step_none]
      | some drv =>
        rw [step_some, step_some]
        rw [readNTS_congr hlen hag
          (((start + w) % 2 ^ 32 + 21) % 2 ^ 32 + vn.length + drv.length + 1) (by omega)]
        cases readNullTerminatedString b2
            (((start + w) % 2 ^ 32 + 21) % 2 ^ 32 + vn.length + drv.length + 1) with
        | none => rw [step_none, step_none]
        | some rst =>
          rw [step_some, step_some]
          exact unicodeOverride_congr hlen hag h20 fh _ start (by omega) hstart hnl _

theorem localBranch_congr {b1 b2 : List Nat} (hlen : b2.length = b1.length)
    (hag : ∀ k, k ≠ 20 → b1.getD k 0 = b2.getD k 0)
    (h20 : byteAt b1 20 / 4 = byteAt b2 20 / 4)
    (start fh : Nat) (hstart : 78 ≤ start)
    (hvo : ∀ w, readInteger 4 b1 (start + 12) = some w →
      17 ≤ (start + w) % 2 ^ 32 ∧ (start + w) % 2 ^ 32 + 16 < 2 ^ 32)
    (hpo : ∀ w, readInteger 4 b1 (start + 16) = some w → 21 ≤ (start + w) % 2 ^ 32)
    (hnl : ∀ w, readInteger 4 b1 start = some w → 21 ≤ (start + w) % 2 ^ 32)
    (s : ParsedLink) : localBranch b1 start fh s = localBranch b2 start fh s := by
  unfold localBranch
  have h12 : readInteger 4 b1 (start + 12) = readInteger 4 b2 (start + 12) :=
    readInteger_congr hlen hag 4 (start + 12) (by omega)
  rw [h12]
  cases hr : readInteger 4 b2 (start + 12) with
  | none => rw [step_none, step_none]
  | some w =>
    rw [step_some, step_some]
    simp only []
    obtain ⟨hv1, hv2⟩ := hvo w (h12.trans hr)
    rw [readInteger_congr hlen hag 4 (((start + w) % 2 ^ 32 + 4) % 2 ^ 32) (by omega)]
    cases readInteger 4 b2 (((start + w) % 2 ^ 32 + 4) % 2 ^ 32) with
    | none => rw [step_none, step_none]
    | some vt =>
      rw [step_some, step_some]
      rw [readInteger_congr hlen hag 4 (((start + w) % 2 ^ 32 + 8) % 2 ^ 32) (by omega)]
      cases readInteger 4 b2 (((start + w) % 2 ^ 32 + 8) % 2 ^ 32) with
      | none => rw [step_none, step_none]
      | some serial =>
        rw [step_some, step_some]
        rw [readNTS_congr hlen hag (((start + w) % 2 ^ 32 + 16) % 2 ^ 32) (by omega)]
        cases readNullTerminatedString b2 (((start + w) % 2 ^ 32 + 16) % 2 ^ 32) with
        | none => rw [step_none, step_none]
        | some vn =>
          rw [step_some, step_some]
          have h16 : readInteger 4 b1 (start + 16) = readInteger 4 b2 (start + 16) :=
            readInteger_congr hlen hag 4 (start + 16) (by omega)
          rw [h16]
          cases h16r : readInteger 4 b2 (start + 16) with
          | none => rw [step_none, step_none]
          | some pv =>
            rw [step_some, step_some]
            simp only []
            have hpo1 : 21 ≤ (start + pv) % 2 ^ 32 := hpo pv (h16.trans h16r)
            rw [readNTS_congr hlen hag ((start + pv) % 2 ^ 32) hpo1]
            cases readNullTerminatedString b2 ((start + pv) % 2 ^ 32) with
            | none => rw [step_none, step_none]
            | some path =>
              rw [step_some, step_some]
              exact unicodeOverride_congr hlen hag h20 fh _ start (by omega) hstart hnl _

/-- C10 amended: two buffers that differ only in the two lowest bits
(`HasShellIdList`, `PointsToFileDir`) of the flag byte at offset 20 decode
identically — both fail leaving the same state or both succeed with the
same record — PROVIDED no computed field offset overlaps offset 20: the
LinkInfo start must not wrap below the fixed header, and the volume table,
target path and string-section offsets must stay clear of the flag byte.
(Without those provisos a wrapped offset can make the decoder re-read byte
20 as string or volume data; see the counterexample.) -/
theorem flag_bits_irrelevant (b1 b2 : List Nat) (init : ParsedLink)
    (hlen : b2.length = b1.length)
    (hag : ∀ k, k ≠ 20 → b1.getD k 0 = b2.getD k 0)
    (h20 : byteAt b1 20 / 4 = byteAt b2 20 / 4)
    (hstart : ∀ v, readInteger 2 b1 76 = some v → 78 + v < 2 ^ 16)
    (hvoL : ∀ v w, readInteger 2 b1 76 = some v →
      readInteger 4 b1 ((78 + v) % 2 ^ 16 + 12) = some w →
      17 ≤ ((78 + v) % 2 ^ 16 + w) % 2 ^ 32 ∧ ((78 + v) % 2 ^ 16 + w) % 2 ^ 32 + 16 < 2 ^ 32)
    (hpoL : ∀ v w, readInteger 2 b1 76 = some v →
      readInteger 4 b1 ((78 + v) % 2 ^ 16 + 16) = some w →
      21 ≤ ((78 + v) % 2 ^ 16 + w) % 2 ^ 32)
    (hvoN : ∀ v w, readInteger 2 b1 76 = some v →
      readInteger 4 b1 ((78 + v) % 2 ^ 16 + 20) = some w →
      1 ≤ ((78 + v) % 2 ^ 16 + w) % 2 ^ 32 ∧ ((78 + v) % 2 ^ 16 + w) % 2 ^ 32 + 21 < 2 ^ 32)
    (hnl : ∀ v w, readInteger 2 b1 76 = some v →
      readInteger 4 b1 ((78 + v) % 2 ^ 16) = some w →
      21 ≤ ((78 + v) % 2 ^ 16 + w) % 2 ^ 32) :
    refreshState b1 init = refreshState b2 init := by
  unfold refreshState
  rw [readInteger_congr hlen hag 1 0 (by omega)]
  cases readInteger 1 b2 0 with
  | none => rw [step_none, step_none]
  | some m =>
    rw [step_some, step_some]
    simp only []
    by_cases hm : m ≠ 0x4C
    · rw [if_pos hm, if_pos hm]
    · rw [if_neg hm, if_neg hm]
      have h76 : readInteger 2 b1 76 = readInteger 2 b2 76 :=
        readInteger_congr hlen hag 2 76 (by omega)
      rw [h76]
      cases h76r : readInteger 2 b2 76 with
      | none => rw [step_none, step_none]
      | some v =>
        rw [step_some, step_some]
        have hst : 78 ≤ (78 + v) % 2 ^ 16 := by
          have := hstart v (h76.trans h76r)
          omega
        rw [readInteger_congr hlen hag 1 ((78 + v) % 2 ^ 16 + 4) (by omega)]
        cases readInteger 1 b2 ((78 + v) % 2 ^ 16 + 4) with
        | none => rw [step_none, step_none]
        | some fh =>
          rw [step_some, step_some]
          by_cases hfh : fh ≠ 0x1C ∧ fh ≠ 0x24
          · rw [if_pos hfh, if_pos hfh]
          · rw [if_neg hfh, if_neg hfh]
            rw [readInteger_congr hlen hag 2 24 (by omega)]
            cases readInteger 2 b2 24 with
            | none => rw [step_none, step_none]
            | some attrs =>
              rw [step_some, step_some]
              rw [readInteger_congr hlen hag 4 52 (by omega)]
              cases readInteger 4 b2 52 with
              | none => rw [step_none, step_none]
              | some size =>
                rw [step_some, step_some]
                rw [readInteger_congr hlen hag 1 ((78 + v) % 2 ^ 16 + 8) (by omega)]
                cases readInteger 1 b2 ((78 + v) % 2 ^ 16 + 8) with
                | none => rw [step_none, step_none]
                | some nf =>
                  rw [step_some, step_some]
                  by_cases hnf : nf &&& 0x02 ≠ 0
                  · rw [if_pos hnf, if_pos hnf]
                    exact networkBranch_congr hlen hag h20 _ fh hst
                      (fun w hw => hvoN v w (h76.trans h76r) hw)
                      (fun w hw => hnl v w (h76.trans h76r) hw) _
                  · rw [if_neg hnf, if_neg hnf]
                    exact localBranch_congr hlen hag h20 _ fh hst
                      (fun w hw => hvoL v w (h76.trans h76r) hw)
                      (fun w hw => hpoL v w (h76.trans h76r) hw)
                      (fun w hw => hnl v w (h76.trans h76r) hw) _

/-- C10 counterexample: `bufFlagOverlapA` and `bufFlagOverlapB` have equal
length, agree on every byte except offset 20, and carry flag bytes 0x04 /
0x05 there (differing only in bit 0x01); both decode successfully, yet the
results differ — the wrapped string-section offset makes the description
field re-read the flag byte as UTF-16 data. -/
theorem flag_bits_counterexample :
    bufFlagOverlapA.length = bufFlagOverlapB.length ∧
    (∀ k : Fin 118, k.val ≠ 20 → bufFlagOverlapA.getD k.val 0 = bufFlagOverlapB.getD k.val 0) ∧
    bufFlagOverlapA.getD 20 0 = 0x04 ∧ bufFlagOverlapB.getD 20 0 = 0x05 ∧
    (refreshState bufFlagOverlapA emptyLnk).2 = true ∧
    (refreshState bufFlagOverlapB emptyLnk).2 = true ∧
    (refreshState bufFlagOverlapA emptyLnk).1 ≠ (refreshState bufFlagOverlapB emptyLnk).1 := by
  decide

/-- C10 witness: the amended theorem applied to `bufLocalPlain` and
`bufShellBit`, which differ exactly in bit 0x01 of the flag byte and whose
field offsets all stay clear of offset 20. -/
theorem flag_bits_irrelevant_witness :
    bufLocalPlain.getD 20 0 / 4 = bufShellBit.getD 20 0 / 4 ∧
    bufLocalPlain.getD 20 0 ≠ bufShellBit.getD 20 0 ∧
    refreshState bufLocalPlain emptyLnk = refreshState bufShellBit emptyLnk := by
  refine ⟨by decide, by decide, ?_⟩
  apply flag_bits_irrelevant
  · decide
  · intro k hk
    rcases Nat.lt_or_ge k 118 with h | h
    · exact (show ∀ j : Fin 118, j.val ≠ 20 →
        bufLocalPlain.getD j.val 0 = bufShellBit.getD j.val 0 by decide) ⟨k, h⟩ hk
    · rw [List.getD_eq_default _ _ (by rw [show bufLocalPlain.length = 118 from by decide]; omega),
        List.getD_eq_default _ _ (by rw [show bufShellBit.length = 118 from by decide]; omega)]
  · decide
  · intro v hv
    rw [show readInteger 2 bufLocalPlain 76 = some 0 from by decide] at hv
    injection hv with h
    omega
  · intro v w hv hw
    rw [show readInteger 2 bufLocalPlain 76 = some 0 from by decide] at hv
    injection hv with h
    subst h
    rw [show readInteger 4 bufLocalPlain ((78 + 0) % 2 ^ 16 + 12) = some 22 from by decide] at hw
    injection hw with h2
    subst h2
    omega
  · intro v w hv hw
    rw [show readInteger 2 bufLocalPlain 76 = some 0 from by decide] at hv
    injection hv with h
    subst h
    rw [show readInteger 4 bufLocalPlain ((78 + 0) % 2 ^ 16 + 16) = some 39 from by decide] at hw
    injection hw with h2
    subst h2
    omega
  · intro v w hv hw
    rw [show readInteger 2 bufLocalPlain 76 = some 0 from by decide] at hv
    injection hv with h
    subst h
    rw [show readInteger 4 bufLocalPlain ((78 + 0) % 2 ^ 16 + 20) = some 0 from by decide] at hw
    injection hw with h2
    subst h2
    omega
  · intro v w hv hw
    rw [show readInteger 2 bufLocalPlain 76 = some 0 from by decide] at hv
    injection hv with h
    subst h
    rw [show readInteger 4 bufLocalPlain ((78 + 0) % 2 ^ 16) = some 0 from by decide] at hw
    injection hw with h2
    subst h2
    omega

/-- C8: for every buffer whose first byte is not 0x4C, `refresh` fails
(`InvalidLnkFile`, the model's `false` flag), whatever the rest of the
buffer contains — and the object state is left untouched. -/
theorem invalid_magic_fails (bytes : List Nat) (init : ParsedLink)
    (h : byteAt bytes 0 ≠ 0x4C) : refreshState bytes init = (init, false) := by
  unfold refreshState
  cases hr : readInteger 1 bytes 0 with
  | none => rfl
  | some m =>
    rw [step_some, if_pos (by rw [readInteger_one_inv hr]; exact h)]

/-- C8 witness: the single-byte buffer `[0x00]` is rejected. -/
theorem invalid_magic_fails_witness :
    byteAt [0x00] 0 ≠ 0x4C ∧ refreshState [0x00] emptyLnk = (emptyLnk, false) :=
  ⟨by decide, invalid_magic_fails [0x00] emptyLnk (by decide)⟩

/-- C7: truncation safety.  (1) A buffer too short to hold the fixed header
(length < 78) is always rejected, with the state untouched; (2) the central
bounds-checked reader fails exactly when `offset + width` exceeds the buffer
length; (3) a successful read touches only indices below `offset + width`
(its value is already determined by the prefix of that length), so no read
in the pipeline ever accesses an index at or beyond the buffer length. -/
theorem truncated_read_safety (bytes : List Nat) (init : ParsedLink) :
    (bytes.length < 78 → refreshState bytes init = (init, false)) ∧
    (∀ w i, bytes.length < i + w → readInteger w bytes i = none) ∧
    (∀ w i v, readInteger w bytes i = some v →
      i + w ≤ bytes.length ∧ readInteger w (bytes.take (i + w)) i = some v) := by
  refine ⟨?_, ?_, ?_⟩
  · intro hlen
    unfold refreshState
    cases hr0 : readInteger 1 bytes 0 with
    | none => rfl
    | some m =>
      rw [step_some]
      by_cases hm : m = 0x4C
      · rw [if_neg (by simp [hm])]
        rw [readInteger_eq_none (by omega), step_none]
      · rw [if_pos hm]
  · intro w i h
    exact readInteger_eq_none h
  · intro w i v h
    have hb := readInteger_bound h
    refine ⟨hb, ?_⟩
    rw [readInteger] at h ⊢
    rw [if_neg (by omega)] at h
    rw [if_neg (by simp [List.length_take]; omega)]
    rw [← h]
    congr 1
    exact foldr_byte_congr _ (fun j hj => byteAt_take (by
      have := List.mem_range.mp hj; omega)) 0

/-- C7 witness: the empty buffer is shorter than the header, hence rejected;
a two-byte-wide read at offset 1 of `[0x4C]` fails; the one-byte read at 0
succeeds and is already determined by the first byte alone. -/
theorem truncated_read_safety_witness :
    refreshState [] emptyLnk = (emptyLnk, false) ∧
    readInteger 2 [0x4C] 1 = none ∧
    (0 + 1 ≤ [0x4C].length ∧ readInteger 1 ([0x4C].take (0 + 1)) 0 = some 0x4C) :=
  ⟨(truncated_read_safety [] emptyLnk).1 (by decide),
   (truncated_read_safety [0x4C] emptyLnk).2.1 2 1 (by decide),
   (truncated_read_safety [0x4C] emptyLnk).2.2 1 0 0x4C (by decide)⟩

/-- C6: whenever a length-prefixed UTF-16 string read at `i` succeeds, the
returned next-field offset is `i + 2 * n + 2` where `n` is the 16-bit
code-unit count stored at `i` — it depends on `i` and `n` only, never on the
string content (surrogate pairs included). -/
theorem prepended_length_offset (bytes : List Nat) (i : Nat) (r : List Nat) (off : Nat)
    (h : readStringWithPrependedLength bytes i = some (r, off)) :
    ∃ n, readInteger 2 bytes i = some n ∧ off = i + n * 2 + 2 := by
  unfold readStringWithPrependedLength at h
  cases hr : readInteger 2 bytes i with
  | none => rw [hr, Option.none_bind] at h; exact Option.noConfusion h
  | some n =>
    rw [hr, Option.some_bind] at h
    refine ⟨n, rfl, ?_⟩
    cases hs : readUtf16Span bytes (i + n * 2) (n + 1) (i + 2) with
    | none => rw [hs, Option.map_none'] at h; exact Option.noConfusion h
    | some rr =>
      rw [hs, Option.map_some'] at h
      simp only [Option.some_inj, Prod.mk.injEq] at h
      omega

/-- C6 witness: a one-character string ("A", with a surrogate-free payload)
read at offset 0 of a six-byte field ends at offset `0 + 1 * 2 + 2 = 4`. -/
theorem prepended_length_offset_witness :
    readStringWithPrependedLength [1, 0, 0x41, 0, 0, 0] 0 = some ([0x41], 4) ∧
    ∃ n, readInteger 2 [1, 0, 0x41, 0, 0, 0] 0 = some n ∧ 4 = 0 + n * 2 + 2 :=
  ⟨by decide, prepended_length_offset [1, 0, 0x41, 0, 0, 0] 0 [0x41] 4 (by decide)⟩

/-- C1 amended: the decode is all-or-nothing up to and through the header
validation — a failure at the magic-byte read or check, at the
header-extra-size read, or at the structure-size read or check leaves the
object state exactly as it was — and a caller constructing an object
(`decode`) can only ever observe a fully completed parse.  (A failure
*after* these checks can leave partially assigned fields behind on an
existing object; see the counterexample.) -/
theorem header_failure_all_or_nothing (bytes : List Nat) (init : ParsedLink) :
    (readInteger 1 bytes 0 = none → refreshState bytes init = (init, false)) ∧
    (∀ m, readInteger 1 bytes 0 = some m → m ≠ 0x4C →
      refreshState bytes init = (init, false)) ∧
    (readInteger 1 bytes 0 = some 0x4C → readInteger 2 bytes 76 = none →
      refreshState bytes init = (init, false)) ∧
    (∀ v, readInteger 1 bytes 0 = some 0x4C → readInteger 2 bytes 76 = some v →
      readInteger 1 bytes ((78 + v) % 2 ^ 16 + 4) = none →
      refreshState bytes init = (init, false)) ∧
    (∀ v fh, readInteger 1 bytes 0 = some 0x4C → readInteger 2 bytes 76 = some v →
      readInteger 1 bytes ((78 + v) % 2 ^ 16 + 4) = some fh → fh ≠ 0x1C → fh ≠ 0x24 →
      refreshState bytes init = (init, false)) ∧
    (∀ s, decode bytes init = some s → refreshState bytes init = (s, true)) := by
  refine ⟨?_, ?_, ?_, ?_, ?_, ?_⟩
  · intro h0
    unfold refreshState
    rw [h0, step_none]
  · intro m h0 hm
    unfold refreshState
    rw [h0, step_some, if_pos hm]
  · intro h0 h76
    unfold refreshState
    rw [h0, step_some, if_neg (by simp), h76, step_none]
  · intro v h0 h76 hfh
    unfold refreshState
    rw [h0, step_some, if_neg (by simp), h76, step_some]
    simp only []
    rw [hfh, step_none]
  · intro v fh h0 h76 hfh h1 h2
    unfold refreshState
    rw [h0, step_some, if_neg (by simp), h76, step_some]
    simp only []
    rw [hfh, step_some, if_pos ⟨h1, h2⟩]
  · intro s hs
    unfold decode at hs
    cases hr : refreshState bytes init with
    | mk s2 b =>
      rw [hr] at hs
      cases b with
      | true => simp only [Option.some_inj] at hs; rw [hs]
      | false => exact Option.noConfusion hs

/-- C1 counterexample: `bufLateFailure` passes the header checks, assigns
the target-attribute field (7), then throws at the network-flag read; the
failed `refresh` leaves the object with the partially decoded attribute
value observable, refuting unconditional all-or-nothing for re-parsing. -/
theorem partial_state_counterexample :
    (refreshState bufLateFailure emptyLnk).2 = false ∧
    (refreshState bufLateFailure emptyLnk).1 ≠ emptyLnk ∧
    (refreshState bufLateFailure emptyLnk).1.targetAttributes = 7 ∧
    emptyLnk.targetAttributes = 0 := by decide

/-- C1 witness: the header-stage all-or-nothing theorem applied to the
truncated buffer `[0x4C]` (the header-extra-size read fails). -/
theorem header_failure_all_or_nothing_witness :
    refreshState [0x4C] emptyLnk = (emptyLnk, false) :=
  (header_failure_all_or_nothing [0x4C] emptyLnk).2.2.1 (by decide) (by decide)

/-- C3 (code bug): `bufLocalPlain` decodes successfully with the flag byte 0
(custom-icon bit clear), yet the returned icon index is whatever
indeterminate value (here 123) the uninitialized `_iconIndex` member held
before `refresh` ran — not the documented 0.  The member has no default
initializer and is assigned only inside the `HasCustomIcon` branch. -/
theorem icon_index_uninitialized :
    (refreshState bufLocalPlain (initLnk 123 0 0 0 0 false)).2 = true ∧
    readInteger 1 bufLocalPlain 20 = some 0 ∧
    (refreshState bufLocalPlain (initLnk 123 0 0 0 0 false)).1.iconIndex = 123 := by decide

/-- C5 amended: a high surrogate at `i` decodes to U+FFFD (UTF-8 bytes
`EF BF BD`) with 2 bytes consumed whenever the field bound ends within 2
bytes of it, or the next two bytes are readable but are not a low
surrogate.  (If the field bound extends at least 4 bytes past `i` but the
buffer itself ends before `i + 4`, the low-surrogate read throws instead —
see the counterexample.) -/
theorem lone_high_surrogate_replacement (bytes : List Nat) (i e high : Nat)
    (hr : readInteger 2 bytes i = some high)
    (hs : high &&& 0xFC00 = 0xD800)
    (hc : e < i + 4 ∨ ∃ low, readInteger 2 bytes (i + 2) = some low ∧ low &&& 0xFC00 ≠ 0xDC00) :
    readUtf16Codepoint bytes i e = some ([0xEF, 0xBF, 0xBD], 2) := by
  have hlt : high < 65536 := readInteger_two_lt hr
  have h8 : high &&& 0xF800 = 0xD800 := by
    rw [and_FC00 (by omega)] at hs
    rw [and_F800 (by omega)]
    omega
  unfold readUtf16Codepoint
  rw [hr, Option.some_bind, if_neg (by simp [h8])]
  rcases hc with hc | ⟨low, hlow, hls⟩
  · rw [if_pos (Or.inr hc)]
    decide
  · by_cases he : e < i + 4
    · rw [if_pos (Or.inr he)]
      decide
    · rw [if_neg (by push_neg; exact ⟨by simp [hs], by omega⟩)]
      rw [hlow, Option.some_bind, if_pos hls]
      decide

/-- C5 counterexample: the two-byte buffer `[0x00, 0xD8]` holds a lone high
surrogate at 0 that is not followed by a valid low surrogate, and with a
field bound of 4 it is NOT within 2 bytes of the field's end; the
transcoder raises an out-of-range error (`none`) instead of producing
U+FFFD. -/
theorem lone_high_surrogate_error_counterexample :
    readInteger 2 [0x00, 0xD8] 0 = some 0xD800 ∧ 0xD800 &&& 0xFC00 = 0xD800 ∧
    ¬ (4 < 0 + 4) ∧ readUtf16Codepoint [0x00, 0xD8] 0 4 = none := by decide

/-- C5 witness: a high surrogate at 0 with field bound 2 (within 2 bytes of
the end) decodes to `EF BF BD`, consuming 2 bytes, with no error. -/
theorem lone_high_surrogate_replacement_witness :
    readUtf16Codepoint [0x00, 0xD8, 0x41, 0x00] 0 2 = some ([0xEF, 0xBF, 0xBD], 2) :=
  lone_high_surrogate_replacement [0x00, 0xD8, 0x41, 0x00] 0 2 0xD800 (by decide) (by decide)
    (Or.inl (by decide))

/-- C4: for every Unicode scalar value up to U+10FFFF that is not a
surrogate code point, encoding it as little-endian UTF-16 (one code unit,
or a surrogate pair above U+FFFF) and decoding with the transcoder yields
exactly the standard UTF-8 encoding, consuming the whole field. -/
theorem utf16_roundtrip (cp : Nat) (h1 : cp ≤ 0x10FFFF)
    (h2 : ¬ (0xD800 ≤ cp ∧ cp ≤ 0xDFFF)) :
    readUtf16Codepoint (utf16EncodeSpec cp) 0 (utf16EncodeSpec cp).length =
      some (utf8Spec cp, (utf16EncodeSpec cp).length) := by
  rcases le_or_lt cp 0xFFFF with hb | hb
  · have hbuf : utf16EncodeSpec cp = [cp % 256, cp / 256] := by
      rw [utf16EncodeSpec, if_pos hb]
    rw [hbuf]
    have hread : readInteger 2 [cp % 256, cp / 256] 0 = some cp := by
      rw [readInteger_two (by simp), byteAt_cons_zero, byteAt_cons_succ, byteAt_cons_zero]
      have hv : cp % 256 % 256 + cp / 256 % 256 * 256 = cp := by omega
      rw [hv]
    show readUtf16Codepoint [cp % 256, cp / 256] 0 2 = some (utf8Spec cp, 2)
    unfold readUtf16Codepoint
    rw [hread, Option.some_bind]
    rw [if_pos (by rw [and_F800 (by omega)]; omega)]
    rw [utf8Encode_eq_spec h1]
  · obtain ⟨hi, hhi⟩ : ∃ x, x = 0xD800 + (cp - 0x10000) / 1024 := ⟨_, rfl⟩
    obtain ⟨lo, hlo⟩ : ∃ x, x = 0xDC00 + (cp - 0x10000) % 1024 := ⟨_, rfl⟩
    have hbuf : utf16EncodeSpec cp = [hi % 256, hi / 256, lo % 256, lo / 256] := by
      rw [utf16EncodeSpec, if_neg (by omega)]
      simp only []
      rw [← hhi, ← hlo]
    have hq : (cp - 0x10000) / 1024 < 1024 := by omega
    have hr : (cp - 0x10000) % 1024 < 1024 := by omega
    have hhi16 : hi < 2 ^ 16 := by omega
    have hlo16 : lo < 2 ^ 16 := by omega
    rw [hbuf]
    show readUtf16Codepoint [hi % 256, hi / 256, lo % 256, lo / 256] 0 4 = some (utf8Spec cp, 4)
    have hread0 : readInteger 2 [hi % 256, hi / 256, lo % 256, lo / 256] 0 = some hi := by
      rw [readInteger_two (by simp), byteAt_cons_zero, byteAt_cons_succ, byteAt_cons_zero]
      have hv : hi % 256 % 256 + hi / 256 % 256 * 256 = hi := by omega
      rw [hv]
    have hread2 : readInteger 2 [hi % 256, hi / 256, lo % 256, lo / 256] 2 = some lo := by
      rw [readInteger_two (by simp), byteAt_cons_succ, byteAt_cons_succ, byteAt_cons_zero,
        byteAt_cons_succ, byteAt_cons_succ, byteAt_cons_succ, byteAt_cons_zero]
      have hv : lo % 256 % 256 + lo / 256 % 256 * 256 = lo := by omega
      rw [hv]
    unfold readUtf16Codepoint
    rw [hread0, Option.some_bind]
    rw [if_neg (by rw [and_F800 hhi16]; omega)]
    rw [if_neg (by push_neg; exact ⟨by rw [and_FC00 hhi16]; omega, by omega⟩)]
    rw [hread2, Option.some_bind]
    rw [if_neg (by rw [and_FC00 hlo16]; omega)]
    have hv : (((hi &&& 0x3FF) <<< 10) ||| (lo &&& 0x3FF)) + 0x10000 = cp := by
      rw [and_3FF, and_3FF, shl10_or (by omega)]
      omega
    rw [hv, utf8Encode_eq_spec h1]

/-- C9 amended: every successful decode with the network bit set (bit 0x02
of the byte at linkInfoStart + 8) yields volume type NetworkDrive (4),
volume serial 0 and the network flag; and — when the structure-size byte is
the legacy 0x1C — a target path equal to the null-terminated Latin-1 drive
string joined to the null-terminated Latin-1 remainder by exactly one
backslash.  (With the extended 0x24 structure size the joined path is
subsequently replaced by the fixed-length Unicode read; see the
counterexample.) -/
theorem network_target_decode (bytes : List Nat) (init s : ParsedLink)
    (hok : refreshState bytes init = (s, true)) :
    ∃ v fh nf, readInteger 2 bytes 76 = some v ∧
      readInteger 1 bytes ((78 + v) % 2 ^ 16 + 4) = some fh ∧
      readInteger 1 bytes ((78 + v) % 2 ^ 16 + 8) = some nf ∧
      (nf &&& 0x02 ≠ 0 →
        s.targetIsOnNetwork = true ∧ s.targetVolumeType = 4 ∧ s.targetVolumeSerial = 0 ∧
        (fh = 0x1C →
          ∃ v20 volumeName targetDrive rest,
            readInteger 4 bytes ((78 + v) % 2 ^ 16 + 20) = some v20 ∧
            readNullTerminatedString bytes
              ((((78 + v) % 2 ^ 16 + v20) % 2 ^ 32 + 20) % 2 ^ 32) = some volumeName ∧
            readNullTerminatedString bytes
              ((((78 + v) % 2 ^ 16 + v20) % 2 ^ 32 + 21) % 2 ^ 32 + volumeName.length)
              = some targetDrive ∧
            readNullTerminatedString bytes
              ((((78 + v) % 2 ^ 16 + v20) % 2 ^ 32 + 21) % 2 ^ 32 + volumeName.length +
                targetDrive.length + 1) = some rest ∧
            s.targetPath = targetDrive ++ [0x5C] ++ rest)) := by
  obtain ⟨v, fh, attrs, size, nf, hv, hfh, hfh2, hattrs, hsize, hnf, hnet, hloc⟩ :=
    refresh_success_structure bytes init s hok
  refine ⟨v, fh, nf, hv, hfh, hnf, ?_⟩
  intro hn
  obtain ⟨v20, vn, drv, rst, hv20, hvn, hdrv, hrst, hover⟩ :=
    networkBranch_success _ _ _ _ _ (hnet hn)
  obtain ⟨hnot24, h24⟩ := unicodeOverride_success _ _ _ _ _ _ hover
  by_cases hfh24 : fh = 0x24
  · obtain ⟨up, hup, hss⟩ := h24 hfh24
    obtain ⟨hP, hN, hS, hSer, hA, hT, hNet⟩ := stringSection_success_fields _ _ _ _ hss
    exact ⟨hNet, hT, hSer, fun h1C => absurd (h1C ▸ hfh24) (by omega)⟩
  · have hss := hnot24 hfh24
    obtain ⟨hP, hN, hS, hSer, hA, hT, hNet⟩ := stringSection_success_fields _ _ _ _ hss
    exact ⟨hNet, hT, hSer, fun _ => ⟨v20, vn, drv, rst, hv20, hvn, hdrv, hrst, hP⟩⟩

/-- C9 counterexample: `bufNetworkUnicode` decodes successfully with the
network flag set, its drive string is "D:" and its remainder "T", yet the
target path is not `D:\T` — the 0x24 structure size makes the decoder
replace the joined path with the fixed-length Unicode read ("QQQQ"). -/
theorem network_target_counterexample :
    (refreshState bufNetworkUnicode emptyLnk).2 = true ∧
    (refreshState bufNetworkUnicode emptyLnk).1.targetIsOnNetwork = true ∧
    readNullTerminatedString bufNetworkUnicode 129 = some [0x44, 0x3A] ∧
    readNullTerminatedString bufNetworkUnicode 132 = some [0x54] ∧
    (refreshState bufNetworkUnicode emptyLnk).1.targetPath ≠
      [0x44, 0x3A] ++ [0x5C] ++ [0x54] ∧
    (refreshState bufNetworkUnicode emptyLnk).1.targetPath = [0x51, 0x51, 0x51, 0x51] := by
  decide

/-- C9 witness: the amended theorem applied to the legacy network buffer
`bufNetworkPlain`, whose target path is `D:\T`. -/
theorem network_target_decode_witness :
    ∃ v fh nf, readInteger 2 bufNetworkPlain 76 = some v ∧
      readInteger 1 bufNetworkPlain ((78 + v) % 2 ^ 16 + 4) = some fh ∧
      readInteger 1 bufNetworkPlain ((78 + v) % 2 ^ 16 + 8) = some nf ∧
      (nf &&& 0x02 ≠ 0 →
        (refreshState bufNetworkPlain emptyLnk).1.targetIsOnNetwork = true ∧
        (refreshState bufNetworkPlain emptyLnk).1.targetVolumeType = 4 ∧
        (refreshState bufNetworkPlain emptyLnk).1.targetVolumeSerial = 0 ∧
        (fh = 0x1C →
          ∃ v20 volumeName targetDrive rest,
            readInteger 4 bufNetworkPlain ((78 + v) % 2 ^ 16 + 20) = some v20 ∧
            readNullTerminatedString bufNetworkPlain
              ((((78 + v) % 2 ^ 16 + v20) % 2 ^ 32 + 20) % 2 ^ 32) = some volumeName ∧
            readNullTerminatedString bufNetworkPlain
              ((((78 + v) % 2 ^ 16 + v20) % 2 ^ 32 + 21) % 2 ^ 32 + volumeName.length)
              = some targetDrive ∧
            readNullTerminatedString bufNetworkPlain
              ((((78 + v) % 2 ^ 16 + v20) % 2 ^ 32 + 21) % 2 ^ 32 + volumeName.length +
                targetDrive.length + 1) = some rest ∧
            (refreshState bufNetworkPlain emptyLnk).1.targetPath =
              targetDrive ++ [0x5C] ++ rest)) :=
  network_target_decode bufNetworkPlain emptyLnk (refreshState bufNetworkPlain emptyLnk).1
    (by decide)

/-- C2 amended: with the extended (0x24) structure-size byte, every
successful decode replaces the Latin-1 target path by the transcoding of a
fixed-byte-length UTF-16 string, whose byte length is `2 ×` the byte length
of the stored (UTF-8-transcoded) Latin-1 path and whose first code unit is
read 2 bytes past the end of that stored path (the reader's internal `+ 2`
skip) — not immediately after the null terminator; see the counterexample. -/
theorem unicode_override_decode (bytes : List Nat) (init s : ParsedLink)
    (hok : refreshState bytes init = (s, true)) :
    ∃ v fh nf, readInteger 2 bytes 76 = some v ∧
      readInteger 1 bytes ((78 + v) % 2 ^ 16 + 4) = some fh ∧
      readInteger 1 bytes ((78 + v) % 2 ^ 16 + 8) = some nf ∧
      (fh = 0x24 →
        (nf &&& 0x02 = 0 →
          ∃ pv path, readInteger 4 bytes ((78 + v) % 2 ^ 16 + 16) = some pv ∧
            readNullTerminatedString bytes (((78 + v) % 2 ^ 16 + pv) % 2 ^ 32) = some path ∧
            readFixedLengthString bytes (((78 + v) % 2 ^ 16 + pv) % 2 ^ 32 + path.length)
              (path.length * 2) = some s.targetPath) ∧
        (nf &&& 0x02 ≠ 0 →
          ∃ v20 volumeName targetDrive rest,
            readInteger 4 bytes ((78 + v) % 2 ^ 16 + 20) = some v20 ∧
            readNullTerminatedString bytes
              ((((78 + v) % 2 ^ 16 + v20) % 2 ^ 32 + 20) % 2 ^ 32) = some volumeName ∧
            readNullTerminatedString bytes
              ((((78 + v) % 2 ^ 16 + v20) % 2 ^ 32 + 21) % 2 ^ 32 + volumeName.length)
              = some targetDrive ∧
            readNullTerminatedString bytes
              ((((78 + v) % 2 ^ 16 + v20) % 2 ^ 32 + 21) % 2 ^ 32 + volumeName.length +
                targetDrive.length + 1) = some rest ∧
            readFixedLengthString bytes
              ((((78 + v) % 2 ^ 16 + v20) % 2 ^ 32 + 21) % 2 ^ 32 + volumeName.length +
                targetDrive.length + 1 + (targetDrive ++ [0x5C] ++ rest).length)
              ((targetDrive ++ [0x5C] ++ rest).length * 2) = some s.targetPath)) := by
  obtain ⟨v, fh, attrs, size, nf, hv, hfh, hfh2, hattrs, hsize, hnf, hnet, hloc⟩ :=
    refresh_success_structure bytes init s hok
  refine ⟨v, fh, nf, hv, hfh, hnf, ?_⟩
  intro h24
  constructor
  · intro hn
    obtain ⟨v12, vt, serial, vn, pv, path, hv12, hvt, hserial, hvn, hpv, hpath, hover⟩ :=
      localBranch_success _ _ _ _ _ (hloc hn)
    obtain ⟨up, hup, hss⟩ := (unicodeOverride_success _ _ _ _ _ _ hover).2 h24
    obtain ⟨hP, _, _, _, _, _, _⟩ := stringSection_success_fields _ _ _ _ hss
    exact ⟨pv, path, hpv, hpath, by rw [hP]; exact hup⟩
  · intro hn
    obtain ⟨v20, vn, drv, rst, hv20, hvn, hdrv, hrst, hover⟩ :=
      networkBranch_success _ _ _ _ _ (hnet hn)
    obtain ⟨up, hup, hss⟩ := (unicodeOverride_success _ _ _ _ _ _ hover).2 h24
    obtain ⟨hP, _, _, _, _, _, _⟩ := stringSection_success_fields _ _ _ _ hss
    exact ⟨v20, vn, drv, rst, hv20, hvn, hdrv, hrst, by rw [hP]; exact hup⟩

/-- C2 counterexample: `bufLocalUnicode` (structure size 0x24, Latin-1 path
"A" at 120 with its null at 121) decodes to target path "Y" (read from
offset 123), while the UTF-16 field located immediately following the
null-terminated Latin-1 path — starting at 122, byte length 2 — transcodes
to the 3-byte UTF-8 sequence of U+5958, which is not the decoded path. -/
theorem unicode_path_counterexample :
    (refreshState bufLocalUnicode emptyLnk).2 = true ∧
    readInteger 1 bufLocalUnicode 82 = some 0x24 ∧
    readNullTerminatedString bufLocalUnicode 120 = some [0x41] ∧
    (refreshState bufLocalUnicode emptyLnk).1.targetPath = [0x59] ∧
    readFixedLengthStringSpec bufLocalUnicode 122 2 = some [0xE5, 0xA5, 0x98] ∧
    readFixedLengthStringSpec bufLocalUnicode 122 2 ≠
      some (refreshState bufLocalUnicode emptyLnk).1.targetPath := by
  decide

/-- C2 witness: the amended theorem applied to `bufLocalUnicode`. -/
theorem unicode_override_decode_witness :
    ∃ v fh nf, readInteger 2 bufLocalUnicode 76 = some v ∧
      readInteger 1 bufLocalUnicode ((78 + v) % 2 ^ 16 + 4) = some fh ∧
      readInteger 1 bufLocalUnicode ((78 + v) % 2 ^ 16 + 8) = some nf ∧
      (fh = 0x24 →
        (nf &&& 0x02 = 0 →
          ∃ pv path, readInteger 4 bufLocalUnicode ((78 + v) % 2 ^ 16 + 16) = some pv ∧
            readNullTerminatedString bufLocalUnicode (((78 + v) % 2 ^ 16 + pv) % 2 ^ 32)
              = some path ∧
            readFixedLengthString bufLocalUnicode
              (((78 + v) % 2 ^ 16 + pv) % 2 ^ 32 + path.length) (path.length * 2)
              = some (refreshState bufLocalUnicode emptyLnk).1.targetPath) ∧
        (nf &&& 0x02 ≠ 0 →
          ∃ v20 volumeName targetDrive rest,
            readInteger 4 bufLocalUnicode ((78 + v) % 2 ^ 16 + 20) = some v20 ∧
            readNullTerminatedString bufLocalUnicode
              ((((78 + v) % 2 ^ 16 + v20) % 2 ^ 32 + 20) % 2 ^ 32) = some volumeName ∧
            readNullTerminatedString bufLocalUnicode
              ((((78 + v) % 2 ^ 16 + v20) % 2 ^ 32 + 21) % 2 ^ 32 + volumeName.length)
              = some targetDrive ∧
            readNullTerminatedString bufLocalUnicode
              ((((78 + v) % 2 ^ 16 + v20) % 2 ^ 32 + 21) % 2 ^ 32 + volumeName.length +
                targetDrive.length + 1) = some rest ∧
            readFixedLengthString bufLocalUnicode
              ((((78 + v) % 2 ^ 16 + v20) % 2 ^ 32 + 21) % 2 ^ 32 + volumeName.length +
                targetDrive.length + 1 + (targetDrive ++ [0x5C] ++ rest).length)
              ((targetDrive ++ [0x5C] ++ rest).length * 2)
              = some (refreshState bufLocalUnicode emptyLnk).1.targetPath)) :=
  unicode_override_decode bufLocalUnicode emptyLnk
    (refreshState bufLocalUnicode emptyLnk).1 (by decide)

/-- C4 witness: the round trip at U+1F600 (a surrogate-pair code point). -/
theorem utf16_roundtrip_witness :
    0x1F600 ≤ 0x10FFFF ∧ ¬ (0xD800 ≤ 0x1F600 ∧ 0x1F600 ≤ 0xDFFF) ∧
    readUtf16Codepoint (utf16EncodeSpec 0x1F600) 0 (utf16EncodeSpec 0x1F600).length =
      some (utf8Spec 0x1F600, (utf16EncodeSpec 0x1F600).length) :=
  ⟨by decide, by decide, utf16_roundtrip 0x1F600 (by decide) (by decide)⟩

end LnkParse
